import Mathlib

/-!
Verification of the order-book analytics core of the Orderbook Depth 3D
Visualizer.  The TypeScript sources are shallowly embedded: JavaScript
numbers are modelled as rationals (`ℚ`), except where the source applies
`Math.log`, which is modelled by `Real.log` on a real-valued field.
Stateful components are modelled by explicit state passing or by a step
function on an explicit state type.
-/

/-- One price level of an order book (source: `OrderbookLevel`), carrying a
price and a quantity. -/
structure OrderbookLevel where
  price : ℚ
  quantity : ℚ
  deriving DecidableEq

/-- A canonical order-book snapshot (source: `OrderbookData`); only the
fields the analytics read are modelled. -/
structure OrderbookData where
  bids : List OrderbookLevel
  asks : List OrderbookLevel
  timestamp : ℚ
  deriving DecidableEq

/-- Comparator `(a, b) => a.price - b.price` of the source, as a relation:
ascending by price. -/
def byPriceAsc (a b : OrderbookLevel) : Prop := a.price ≤ b.price

/-- Comparator `(a, b) => b.price - a.price` of the source: descending by
price. -/
def byPriceDesc (a b : OrderbookLevel) : Prop := b.price ≤ a.price

instance : DecidableRel byPriceAsc :=
  fun a b => inferInstanceAs (Decidable (a.price ≤ b.price))

instance : DecidableRel byPriceDesc :=
  fun a b => inferInstanceAs (Decidable (b.price ≤ a.price))

instance : IsTotal OrderbookLevel byPriceAsc := ⟨fun a b => le_total a.price b.price⟩

instance : IsTotal OrderbookLevel byPriceDesc := ⟨fun a b => le_total b.price a.price⟩

instance : IsTrans OrderbookLevel byPriceAsc := ⟨fun _ _ _ h h2 => le_trans h h2⟩

instance : IsTrans OrderbookLevel byPriceDesc := ⟨fun _ _ _ h h2 => le_trans h2 h⟩

/-- Source `[...levels].sort((a, b) => a.price - b.price)` — a stable ascending
sort by price. -/
def sortLevelsAsc (ls : List OrderbookLevel) : List OrderbookLevel :=
  ls.insertionSort byPriceAsc

/-- Source `[...levels].sort((a, b) => b.price - a.price)` — a stable descending
sort by price. -/
def sortLevelsDesc (ls : List OrderbookLevel) : List OrderbookLevel :=
  ls.insertionSort byPriceDesc

/-- Sum of the quantities of a list of levels. -/
def totalQuantity (ls : List OrderbookLevel) : ℚ := (ls.map (·.quantity)).sum

/-- Sum of `quantity * price` over a list of levels: the cost of sweeping
every level completely. -/
def sweepCost (ls : List OrderbookLevel) : ℚ :=
  (ls.map (fun l => l.quantity * l.price)).sum

/-- The trade side of a market-impact request (`'buy' | 'sell'`). -/
inductive TradeSide
  | buy
  | sell
  deriving DecidableEq

/-- The record returned by `calculateMarketImpact`. -/
structure MarketImpactResult where
  averagePrice : ℚ
  priceImpact : ℚ
  slippage : ℚ
  worstPrice : ℚ
  executionTime : ℚ
  deriving DecidableEq

/-- The `for (const level of levels)` loop of `calculateMarketImpact`:
state is `(remainingSize, totalCost, worstPrice, levelsUsed)`, and the loop
breaks as soon as `remainingSize <= 0`. -/
def walkLevels : List OrderbookLevel → ℚ → ℚ → ℚ → ℕ → ℚ × ℚ × ℚ × ℕ
  | [], remaining, totalCost, worst, used => (remaining, totalCost, worst, used)
  | level :: rest, remaining, totalCost, worst, used =>
    if remaining ≤ 0 then (remaining, totalCost, worst, used)
    else
      walkLevels rest (remaining - min remaining level.quantity)
        (totalCost + min remaining level.quantity * level.price) level.price (used + 1)

/-- The side of the book a market order consumes: asks for a buy, bids for
a sell. -/
def oppositeLevels (data : OrderbookData) : TradeSide → List OrderbookLevel
  | TradeSide.buy => data.asks
  | TradeSide.sell => data.bids

/-- Source `OrderbookProcessor.calculateMarketImpact(data, tradeSize, side)`:
sorts the opposite side best-price-first, walks it consuming `tradeSize`,
and reports volume-weighted average price, percentage price impact
relative to the best price, worst-level slippage, the worst (deepest)
price touched and a per-level execution-time proxy. -/
def calculateMarketImpact (data : OrderbookData) (tradeSize : ℚ) (side : TradeSide) :
    MarketImpactResult :=
  let levels := match side with
    | TradeSide.buy => sortLevelsAsc data.asks
    | TradeSide.sell => sortLevelsDesc data.bids
  match levels with
  | [] => ⟨0, 0, 0, 0, 0⟩
  | best :: rest =>
    let bestPrice := best.price
    let r := walkLevels (best :: rest) tradeSize 0 bestPrice 0
    let remaining := r.1
    let totalCost := r.2.1
    let worstPrice := r.2.2.1
    let levelsUsed := r.2.2.2
    let averagePrice := totalCost / (tradeSize - remaining)
    { averagePrice := averagePrice
      priceImpact := |(averagePrice - bestPrice) / bestPrice| * 100
      slippage := |(worstPrice - bestPrice) / bestPrice| * 100
      worstPrice := worstPrice
      executionTime := (levelsUsed : ℚ) * (1 / 10) }

/-- Total depth available on the opposite side of the book. -/
def availableDepth (data : OrderbookData) (side : TradeSide) : ℚ :=
  totalQuantity (oppositeLevels data side)

/-- Concrete two-level book used to witness claim C1. -/
def impactData : OrderbookData :=
  { bids := [{ price := 99, quantity := 1 }]
    asks := [{ price := 101, quantity := 2 }, { price := 102, quantity := 3 }]
    timestamp := 0 }

/-- Source `clusterDistance = 0.005`: the 0.5% price-distance threshold for
clustering. -/
def clusterDistance : ℚ := 5 / 1000

/-- The volume-weighted distance of `enhancedClusterLevels`: the raw
relative price distance `Math.abs(cur.price - last.price) / last.price`
multiplied by `1 + (1 - volumeWeight)`, where `volumeWeight =
Math.min(cur.quantity, last.quantity) / Math.max(cur.quantity,
last.quantity)`. -/
def weightedDistance (lastIn cur : OrderbookLevel) : ℚ :=
  (|cur.price - lastIn.price| / lastIn.price) *
    (1 + (1 - min cur.quantity lastIn.quantity / max cur.quantity lastIn.quantity))

/-- The forward scan of `enhancedClusterLevels`: `currRev` holds the
current cluster except its last element, in reverse order, and `lastIn` is
the element last pushed onto the current cluster (the loop's
`lastInCluster`). -/
def clusterLoop (currRev : List OrderbookLevel) (lastIn : OrderbookLevel) :
    List OrderbookLevel → List (List OrderbookLevel)
  | [] => [(lastIn :: currRev).reverse]
  | l :: rest =>
    if weightedDistance lastIn l ≤ clusterDistance then
      clusterLoop (lastIn :: currRev) l rest
    else
      (lastIn :: currRev).reverse :: clusterLoop [] l rest

/-- Source `PressureZoneDetector.enhancedClusterLevels`: sort levels ascending by
price, then in one forward scan append each level to the current cluster
exactly when its volume-weighted distance to the cluster's last level is
at most `clusterDistance`, otherwise start a new cluster. -/
def enhancedClusterLevels (levels : List OrderbookLevel) : List (List OrderbookLevel) :=
  match sortLevelsAsc levels with
  | [] => []
  | x :: rest => clusterLoop [] x rest

/-- Source `volumeThreshold = 0.1`: a cluster must carry at least 10% of its
side's total volume to be admitted as a zone. -/
def volumeThreshold : ℚ := 1 / 10

/-- The side a zone belongs to (`'bid' | 'ask'`). -/
inductive Side
  | bid
  | ask
  deriving DecidableEq

/-- The predicted movement of a zone. -/
inductive ZoneMovement
  | strengthening
  | weakening
  | stable
  deriving DecidableEq

/-- The `prediction` object attached to a zone. -/
structure ZonePrediction where
  movement : ZoneMovement
  confidence : ℚ

/-- A detected pressure zone (source: `PressureZone`).  `intensity` is
real-valued because the source computes it with `Math.log`. -/
structure PressureZone where
  priceStart : ℚ
  priceEnd : ℚ
  volume : ℚ
  intensity : ℝ
  type : Side
  timestamp : ℚ
  prediction : ZonePrediction

/-- Source `Math.max(...cluster.map(l => l.quantity))`; `0` stands in for the
empty case (`-Infinity` in JavaScript), which the detector never hits
because clusters are non-empty. -/
def maxQuantity : List OrderbookLevel → ℚ
  | [] => 0
  | l :: rest => (rest.map (·.quantity)).foldl max l.quantity

/-- Source `PressureZoneDetector.calculateAdvancedIntensity`: `volumeRatio *
densityFactor * concentrationFactor * 100`, where `volumeRatio =
clusterVolume / totalVolume`, `densityFactor = levelCount > 1 ?
Math.log(levelCount) : 1`, `avgQuantity = clusterVolume / levelCount` and
`concentrationFactor = maxQuantity / avgQuantity`. -/
noncomputable def calculateAdvancedIntensity (clusterVolume totalVolume : ℚ)
    (levelCount : ℕ) (cluster : List OrderbookLevel) : ℝ :=
  ((clusterVolume : ℝ) / (totalVolume : ℝ)) *
    (if 1 < levelCount then Real.log levelCount else 1) *
    ((maxQuantity cluster : ℝ) / ((clusterVolume : ℝ) / (levelCount : ℝ))) * 100

/-- The `reduce` of `predictZoneMovement`: sum of consecutive intensity
differences (`index === 0` contributes `0`). -/
noncomputable def intensityDiffSum : List ℝ → ℝ
  | [] => 0
  | [_] => 0
  | a :: b :: rest => (b - a) + intensityDiffSum (b :: rest)

/-- The two-cluster book used to witness claims C4 and C5: clusters
`[{price 100, qty 5}]` and `[{price 200, qty 15}]` against total volume
20, both above the 10% admission threshold. -/
def zoneLevels : List OrderbookLevel :=
  [{ price := 100, quantity := 5 }, { price := 200, quantity := 15 }]

/-- Modelled from the spec: the claimed intensity formula `volumeRatio ×
log(levelCount) × concentrationFactor × 100`, reading the spec as applying
the logarithm at every level count including `levelCount = 1`. -/
noncomputable def claimedIntensity (clusterVolume totalVolume : ℚ)
    (levelCount : ℕ) (cluster : List OrderbookLevel) : ℝ :=
  ((clusterVolume : ℝ) / (totalVolume : ℝ)) * Real.log levelCount *
    ((maxQuantity cluster : ℝ) / ((clusterVolume : ℝ) / (levelCount : ℝ))) * 100

/-- One heatmap cell (source: `HeatmapData`). -/
structure HeatmapData where
  priceLevel : ℚ
  timeSlot : ℕ
  volume : ℚ
  intensity : ℚ
  type : Side
  temperature : ℝ

/-- Source `calculateTemperature`: `baseTemp = Math.log(volume + 1) * 10`,
`normalizedTemp = Math.min(baseTemp / 100, 1)` (the `maxTimeSlots`
parameter is unused in the source as well). -/
noncomputable def calculateTemperature (volume : ℚ) (maxTimeSlots : ℕ) : ℝ :=
  min (Real.log ((volume : ℝ) + 1) * 10 / 100) 1

/-- Source `Math.min(...prices)` over a non-empty list (`0` stands in for the
empty case, which yields `Infinity` in JavaScript and is never used by a
non-degenerate call). -/
def listMinD : List ℚ → ℚ
  | [] => 0
  | x :: xs => xs.foldl min x

/-- Source `Math.max(...prices)`, analogously. -/
def listMaxD : List ℚ → ℚ
  | [] => 0
  | x :: xs => xs.foldl max x

/-- In the source, the ask-side lower-bound check reads `ask.price >=
priceRange`, comparing the price against the two-element array
`[priceLevel, priceLevel + priceStep]` itself rather than against
`priceRange[0]`; JavaScript coerces the array to `NaN`, so the comparison
is always false.  The embedding records that constant-false result. -/
def askLowerBoundCheck (price lo hi : ℚ) : Bool := false

/-- Source `PressureZoneDetector.generateMarketDepthHeatmap(orderbooks,
timeWindow)`: 20 time slots over `[now - timeWindow, now)`, 50 price
buckets over the observed price range; per (slot, bucket) cell the bid and
ask volumes are summed over the snapshots in the slot and a cell is
emitted for each non-zero sum with `intensity = min(volume / 10, 1)` and a
logarithmic temperature.  `now` models the source's `Date.now()`. -/
noncomputable def generateMarketDepthHeatmap (orderbooks : List OrderbookData)
    (timeWindow : ℚ) (now : ℚ) : List HeatmapData :=
  let timeSlots : ℕ := 20
  let priceSlots : ℕ := 50
  if orderbooks.isEmpty then []
  else
    let allPrices := orderbooks.flatMap (fun ob =>
      ob.bids.map (·.price) ++ ob.asks.map (·.price))
    let minPrice := listMinD allPrices
    let maxPrice := listMaxD allPrices
    let priceStep := (maxPrice - minPrice) / (priceSlots : ℚ)
    let timeStep := timeWindow / (timeSlots : ℚ)
    (List.range timeSlots).flatMap (fun t =>
      let timeSlotStart := now - timeWindow + (t : ℚ) * timeStep
      let timeSlotEnd := timeSlotStart + timeStep
      let relevantOrderbooks := orderbooks.filter (fun ob =>
        decide (timeSlotStart ≤ ob.timestamp ∧ ob.timestamp < timeSlotEnd))
      (List.range priceSlots).flatMap (fun p =>
        let priceLevel := minPrice + (p : ℚ) * priceStep
        let hi := priceLevel + priceStep
        let bidVolume := (relevantOrderbooks.map (fun ob =>
          ((ob.bids.filter (fun bid =>
            decide (priceLevel ≤ bid.price ∧ bid.price < hi))).map
              (·.quantity)).sum)).sum
        let askVolume := (relevantOrderbooks.map (fun ob =>
          ((ob.asks.filter (fun ask =>
            askLowerBoundCheck ask.price priceLevel hi &&
              decide (ask.price < hi))).map (·.quantity)).sum)).sum
        (if 0 < bidVolume then
          [{ priceLevel := priceLevel, timeSlot := t, volume := bidVolume,
             intensity := min (bidVolume / 10) 1, type := Side.bid,
             temperature := calculateTemperature bidVolume timeSlots }]
        else []) ++
        (if 0 < askVolume then
          [{ priceLevel := priceLevel, timeSlot := t, volume := askVolume,
             intensity := min (askVolume / 10) 1, type := Side.ask,
             temperature := calculateTemperature askVolume timeSlots }]
        else [])))

/-- One spread sample of the bounded spread history. -/
structure SpreadSample where
  timestamp : ℚ
  value : ℚ
  deriving DecidableEq

/-- Source `OrderbookProcessor.calculateTrend(values)`: the least-squares slope
of `values` against the indices `0, 1, ...` computed from the closed-form
index sums; `0` when fewer than two values. -/
def calculateTrend (values : List ℚ) : ℚ :=
  if values.length < 2 then 0
  else
    let n : ℚ := values.length
    let sumX := n * (n - 1) / 2
    let sumY := values.sum
    let sumXY := ∑ i in Finset.range values.length, values.getD i 0 * i
    let sumXX := n * (n - 1) * (2 * n - 1) / 6
    (n * sumXY - sumX * sumY) / (n * sumXX - sumX * sumX)

/-- The possible spread-trend classifications. -/
inductive SpreadTrend
  | widening
  | narrowing
  | stable
  deriving DecidableEq

/-- The trend classification of `calculateAdvancedSpreadAnalysis`: the
regression slope of the most recent (up to 10) spread samples classified
against the fixed ±0.01 threshold; an empty history classifies as stable
through the early-return branch. -/
def spreadTrendDirection (history : List SpreadSample) : SpreadTrend :=
  if history.length = 0 then SpreadTrend.stable
  else
    let spreads := history.map (·.value)
    let recentSpreads := spreads.drop (spreads.length - 10)
    let trend := if 2 ≤ recentSpreads.length then calculateTrend recentSpreads else 0
    if 1 / 100 < trend then SpreadTrend.widening
    else if trend < -(1 / 100) then SpreadTrend.narrowing
    else SpreadTrend.stable

/-- Source `OrderbookProcessor.maxSnapshots = 1000`. -/
def maxSnapshots : ℕ := 1000

/-- Source `PressureZoneDetector.maxHistoryLength = 1000`. -/
def maxHistoryLength : ℕ := 1000

/-- An entry of the processor's per-venue+symbol snapshot history
(source: `OrderbookSnapshot`). -/
structure OrderbookSnapshot where
  timestamp : ℚ
  data : OrderbookData
  pressureZones : List PressureZone
  zAxisPosition : ℚ

/-- The history maintenance of `OrderbookProcessor.addSnapshot` for one
venue+symbol key: `snapshots.push(snapshot)`, then `snapshots.shift()`
when the length exceeds `maxSnapshots`. -/
def addSnapshotHistory (snapshots : List OrderbookSnapshot)
    (snapshot : OrderbookSnapshot) : List OrderbookSnapshot :=
  let pushed := snapshots ++ [snapshot]
  if maxSnapshots < pushed.length then pushed.tail else pushed

/-- Source `PressureZoneDetector.updateHistoricalZones`:
`historicalZones.push(...zones)`, then `slice(-maxHistoryLength)` when the
length exceeds the cap. -/
def updateHistoricalZones (hist zones : List PressureZone) : List PressureZone :=
  let pushed := hist ++ zones
  if maxHistoryLength < pushed.length then pushed.drop (pushed.length - maxHistoryLength)
  else pushed

/-- Source `VenueConnectionState` (source string union
`disconnected | connecting | connected | failed`). -/
inductive ConnState
  | disconnected
  | connecting
  | connected
  | failed
  deriving DecidableEq

/-- The per-venue state of the feed manager: connection state, the
`consecutiveErrors` quality counter, the reconnect-attempt counter,
whether a polling interval is installed, and the pending reconnect timer's
delay, if any. -/
structure VenueState where
  conn : ConnState
  consecutiveErrors : ℕ
  reconnectAttempts : ℕ
  polling : Bool
  reconnectTimer : Option ℚ
  deriving DecidableEq

/-- Events of one venue's lifecycle: a successful poll, a failed poll, the
reconnect timer firing, and the outcome of a connect attempt.  `jitter`
models `Math.random() * 3000`. -/
inductive VenueEvent
  | pollSuccess
  | pollFailure (jitter : ℚ)
  | reconnectTimerFire
  | connectSuccess
  | connectFailure (jitter : ℚ)

/-- Source `maxReconnectAttempts = 8`. -/
def maxReconnectAttempts : ℕ := 8

/-- The backoff delay of `scheduleReconnect`: `min(5000 * 1.5^attempts +
jitter, 60000)`. -/
def backoffDelay (attempts : ℕ) (jitter : ℚ) : ℚ :=
  min (5000 * (3 / 2) ^ attempts + jitter) 60000

/-- Source `WebSocketManager.scheduleReconnect`: at or beyond
`maxReconnectAttempts` the venue is marked failed and no timer is set (the
circuit breaker); otherwise a timer with the capped exponential backoff
delay is installed. -/
def scheduleReconnect (s : VenueState) (jitter : ℚ) : VenueState :=
  if maxReconnectAttempts ≤ s.reconnectAttempts then
    { s with conn := ConnState.failed, reconnectTimer := none }
  else
    { s with reconnectTimer := some (backoffDelay s.reconnectAttempts jitter) }

/-- One step of the per-venue machine.  A poll outcome only applies while
the polling interval is installed; the timer can only fire while set; a
connect outcome only applies while the venue is `connecting`.  Poll
success resets `consecutiveErrors`; the third consecutive poll failure
sets the venue to failed, clears the polling interval and schedules a
reconnect; the timer firing increments the attempt counter and starts a
connect attempt; connect success resets the attempt counter to `0` and
restarts polling; connect failure marks the venue failed and schedules a
reconnect. -/
def venueStep (s : VenueState) (e : VenueEvent) : VenueState :=
  match e with
  | VenueEvent.pollSuccess =>
    if s.polling then { s with consecutiveErrors := 0 } else s
  | VenueEvent.pollFailure jitter =>
    if s.polling then
      let s1 : VenueState := { s with consecutiveErrors := s.consecutiveErrors + 1 }
      if 3 ≤ s1.consecutiveErrors then
        scheduleReconnect { s1 with conn := ConnState.failed, polling := false } jitter
      else s1
    else s
  | VenueEvent.reconnectTimerFire =>
    match s.reconnectTimer with
    | some _ =>
      { s with
        reconnectTimer := none
        reconnectAttempts := s.reconnectAttempts + 1
        conn := ConnState.connecting }
    | none => s
  | VenueEvent.connectSuccess =>
    if s.conn = ConnState.connecting then
      { s with
        conn := ConnState.connected
        reconnectAttempts := 0
        consecutiveErrors := 0
        polling := true }
    else s
  | VenueEvent.connectFailure jitter =>
    if s.conn = ConnState.connecting then
      scheduleReconnect { s with
        conn := ConnState.failed
        consecutiveErrors := s.consecutiveErrors + 1 } jitter
    else s

/-- The observable outcome of invoking one subscriber: delivery succeeded,
or the callback threw and the exception was caught in the dispatch loop.
Exceptions are modelled as `Except` values with a numeric code. -/
inductive DeliveryOutcome
  | delivered
  | caught (code : ℕ)
  deriving DecidableEq

/-- Source `WebSocketManager.notifySubscribers(data)`: invoke every subscriber's
callback with the snapshot inside a per-call `try/catch`, so the loop
continues past a throwing callback. -/
def notifySubscribers (subscribers : List (OrderbookData → Except ℕ Unit))
    (data : OrderbookData) : List DeliveryOutcome :=
  match subscribers with
  | [] => []
  | cb :: rest =>
    (match cb data with
      | Except.ok _ => DeliveryOutcome.delivered
      | Except.error code => DeliveryOutcome.caught code) ::
    notifySubscribers rest data

/-- A concrete fan-out run used to witness claim C9: the middle subscriber
throws, both neighbours still receive the snapshot. -/
def sampleSnapshot : OrderbookData :=
  { bids := [{ price := 100, quantity := 1 }]
    asks := [{ price := 101, quantity := 1 }]
    timestamp := 0 }

/-- The imbalance direction (`'bid' | 'ask' | 'balanced'`). -/
inductive ImbalanceDirection
  | bid
  | ask
  | balanced
  deriving DecidableEq

/-- The imbalance forecast (`'bullish' | 'bearish' | 'neutral'`). -/
inductive MarketOutlook
  | bullish
  | bearish
  | neutral
  deriving DecidableEq

/-- The record returned by `detectImbalances`. -/
structure ImbalanceResult where
  ratio : ℚ
  direction : ImbalanceDirection
  intensity : ℚ
  prediction : MarketOutlook
  deriving DecidableEq

/-- Source `PressureZoneDetector.detectImbalances(data)`: top-10-level bid and
ask volumes; when both are zero a fixed balanced result with ratio 1 is
returned before the ratio division, otherwise the ratio
`bidVolume / (bidVolume + askVolume)` is classified against the 0.65/0.35
thresholds with `intensity = |ratio - 0.5| * 2`. -/
def detectImbalances (data : OrderbookData) : ImbalanceResult :=
  let bidVolume := totalQuantity (data.bids.take 10)
  let askVolume := totalQuantity (data.asks.take 10)
  if bidVolume = 0 ∧ askVolume = 0 then
    { ratio := 1, direction := ImbalanceDirection.balanced, intensity := 0,
      prediction := MarketOutlook.neutral }
  else
    let ratio := bidVolume / (bidVolume + askVolume)
    let imbalanceIntensity := |ratio - 1 / 2| * 2
    if 65 / 100 < ratio then
      { ratio := ratio, direction := ImbalanceDirection.bid,
        intensity := imbalanceIntensity, prediction := MarketOutlook.bullish }
    else if ratio < 35 / 100 then
      { ratio := ratio, direction := ImbalanceDirection.ask,
        intensity := imbalanceIntensity, prediction := MarketOutlook.bearish }
    else
      { ratio := ratio, direction := ImbalanceDirection.balanced,
        intensity := imbalanceIntensity, prediction := MarketOutlook.neutral }

section
open Classical
/-- Source `PressureZoneDetector.predictZoneMovement`: looks up historically
similar zones (same side, `priceStart` within 2% of the cluster's average
price, observed within the last 5 minutes); fewer than 3 matches default
to a low-confidence stable prediction, otherwise the mean consecutive
intensity delta of the 5 most recent matches is classified against a ±5
threshold. -/
noncomputable def predictZoneMovement (hist : List PressureZone)
    (cluster : List OrderbookLevel) (type : Side) (timestamp : ℚ) : ZonePrediction :=
  let avgPrice := ((cluster.map (·.price)).sum) / (cluster.length : ℚ)
  let similarZones := hist.filter (fun z =>
    decide (z.type = type ∧ |z.priceStart - avgPrice| / avgPrice < 2 / 100 ∧
      timestamp - z.timestamp < 300000))
  if similarZones.length < 3 then ⟨ZoneMovement.stable, 3 / 10⟩
  else
    let recentZones := similarZones.drop (similarZones.length - 5)
    let intensityTrend := intensityDiffSum (recentZones.map (·.intensity)) /
      ((recentZones.length : ℝ) - 1)
    let confidence := min ((similarZones.length : ℚ) / 10) (95 / 100)
    if 5 < intensityTrend then ⟨ZoneMovement.strengthening, confidence⟩
    else if intensityTrend < -5 then ⟨ZoneMovement.weakening, confidence⟩
    else ⟨ZoneMovement.stable, confidence⟩

/-- The `PressureZone` object `detectZonesInLevels` builds for one
admitted cluster: `prices = cluster.map(l => l.price).sort((a, b) => a -
b)`, `priceStart = prices[0]`, `priceEnd = prices[prices.length - 1]`
(`0` stands in for the out-of-bounds access on an empty cluster, which
never occurs). -/
noncomputable def mkZone (hist : List PressureZone) (cluster : List OrderbookLevel)
    (totalVolume : ℚ) (type : Side) (timestamp : ℚ) : PressureZone :=
  let clusterVolume := totalQuantity cluster
  let prices := (cluster.map (·.price)).insertionSort (· ≤ ·)
  { priceStart := prices.headD 0
    priceEnd := prices.getLastD 0
    volume := clusterVolume
    intensity := calculateAdvancedIntensity clusterVolume totalVolume cluster.length cluster
    type := type
    timestamp := timestamp
    prediction := predictZoneMovement hist cluster type timestamp }

/-- Source `zones.sort((a, b) => b.intensity - a.intensity)`: descending by
intensity. -/
noncomputable def sortZonesByIntensityDesc (zones : List PressureZone) : List PressureZone :=
  zones.insertionSort (fun z1 z2 => z2.intensity ≤ z1.intensity)

/-- Source `PressureZoneDetector.detectZonesInLevels`: cluster the side's levels,
admit the clusters whose volume is at least `volumeThreshold` of the
side's total volume as zones, and return them sorted descending by
intensity. -/
noncomputable def detectZonesInLevels (hist : List PressureZone)
    (levels : List OrderbookLevel) (type : Side) (timestamp : ℚ) : List PressureZone :=
  if levels.isEmpty then []
  else
    let totalVolume := totalQuantity levels
    let minVolumeForZone := totalVolume * volumeThreshold
    let clusters := enhancedClusterLevels levels
    let zones := clusters.filterMap (fun cluster =>
      if minVolumeForZone ≤ totalQuantity cluster then
        some (mkZone hist cluster totalVolume type timestamp)
      else none)
    sortZonesByIntensityDesc zones

/-- Source `PressureZoneDetector.detectPressureZones`: bid zones then ask zones,
each detected from the same historical-zone store. -/
noncomputable def detectPressureZones (hist : List PressureZone)
    (data : OrderbookData) : List PressureZone :=
  detectZonesInLevels hist data.bids Side.bid data.timestamp ++
    detectZonesInLevels hist data.asks Side.ask data.timestamp

end
section
open Classical
theorem mem_sortZonesByIntensityDesc (zones : List PressureZone) (z : PressureZone) :
    z ∈ sortZonesByIntensityDesc zones ↔ z ∈ zones :=
  (List.perm_insertionSort _ zones).mem_iff

theorem mem_detectZonesInLevels (hist : List PressureZone)
    (levels : List OrderbookLevel) (type : Side) (timestamp : ℚ)
    (hne : levels ≠ []) (z : PressureZone) :
    z ∈ detectZonesInLevels hist levels type timestamp ↔
      ∃ c ∈ enhancedClusterLevels levels,
        totalQuantity levels * volumeThreshold ≤ totalQuantity c ∧
        z = mkZone hist c (totalQuantity levels) type timestamp := by
  unfold detectZonesInLevels
  rw [if_neg (by simpa [List.isEmpty_iff] using hne)]
  rw [mem_sortZonesByIntensityDesc, List.mem_filterMap]
  constructor
  · rintro ⟨c, hc, hfc⟩
    by_cases hcond : totalQuantity levels * volumeThreshold ≤ totalQuantity c
    · rw [if_pos hcond] at hfc
      exact ⟨c, hc, hcond, (Option.some_inj.1 hfc).symm⟩
    · rw [if_neg hcond] at hfc
      cases hfc
  · rintro ⟨c, hc, hcond, rfl⟩
    exact ⟨c, hc, by rw [if_pos hcond]⟩

end
theorem totalQuantity_nil : totalQuantity [] = 0 := rfl

theorem totalQuantity_cons (l : OrderbookLevel) (ls : List OrderbookLevel) :
    totalQuantity (l :: ls) = l.quantity + totalQuantity ls := by
  simp [totalQuantity]

theorem sweepCost_cons (l : OrderbookLevel) (ls : List OrderbookLevel) :
    sweepCost (l :: ls) = l.quantity * l.price + sweepCost ls := by
  simp [sweepCost]

theorem totalQuantity_nonneg (ls : List OrderbookLevel)
    (h : ∀ l ∈ ls, 0 < l.quantity) : 0 ≤ totalQuantity ls := by
  refine List.sum_nonneg ?_
  intro x hx
  rcases List.mem_map.1 hx with ⟨l, hl, rfl⟩
  exact le_of_lt (h l hl)

theorem totalQuantity_pos (l : OrderbookLevel) (ls : List OrderbookLevel)
    (h : ∀ x ∈ l :: ls, 0 < x.quantity) : 0 < totalQuantity (l :: ls) := by
  rw [totalQuantity_cons]
  have h1 : 0 < l.quantity := h l (List.mem_cons_self l ls)
  have h2 : 0 ≤ totalQuantity ls :=
    totalQuantity_nonneg ls (fun x hx => h x (List.mem_cons_of_mem l hx))
  linarith

theorem walkLevels_of_le_sum (ls : List OrderbookLevel)
    (hq : ∀ l ∈ ls, 0 < l.quantity) :
    ∀ remaining totalCost worst used, totalQuantity ls ≤ remaining →
      walkLevels ls remaining totalCost worst used =
        (remaining - totalQuantity ls, totalCost + sweepCost ls,
          (ls.map (·.price)).getLastD worst, used + ls.length) := by
  induction ls with
  | nil =>
    intro remaining totalCost worst used _
    simp [walkLevels, totalQuantity, sweepCost]
  | cons level rest ih =>
    intro remaining totalCost worst used hle
    have hlq : 0 < level.quantity := hq level (List.mem_cons_self level rest)
    have hrest : ∀ l ∈ rest, 0 < l.quantity :=
      fun l hl => hq l (List.mem_cons_of_mem level hl)
    have hrq : 0 ≤ totalQuantity rest := totalQuantity_nonneg rest hrest
    rw [totalQuantity_cons] at hle
    have hpos : 0 < remaining := by linarith
    have hmin : min remaining level.quantity = level.quantity :=
      min_eq_right (by linarith)
    rw [walkLevels, if_neg (not_le.mpr hpos), hmin,
      ih hrest (remaining - level.quantity) (totalCost + level.quantity * level.price)
        level.price (used + 1) (by linarith)]
    rw [totalQuantity_cons, sweepCost_cons]
    refine Prod.ext ?_ (Prod.ext ?_ (Prod.ext ?_ ?_))
    · simp only []
      ring
    · simp only []
      ring
    · rw [List.map_cons, List.getLastD_cons]
    · simp only [List.length_cons]
      omega

theorem getLastD_mem {α : Type} (l : List α) (d : α) (h : l ≠ []) : l.getLastD d ∈ l := by
  induction l generalizing d with
  | nil => exact absurd rfl h
  | cons a t ih =>
    rw [List.getLastD_cons]
    cases t with
    | nil => simp
    | cons b t2 => exact List.mem_cons_of_mem a (ih a (by simp))

theorem le_getLastD_of_sorted (l : List ℚ) (hs : l.Sorted (· ≤ ·)) :
    ∀ d, ∀ x ∈ l, x ≤ l.getLastD d := by
  induction l with
  | nil => intro d x hx; cases hx
  | cons a t ih =>
    intro d x hx
    rw [List.getLastD_cons]
    rcases List.mem_cons.1 hx with rfl | hxt
    · cases t with
      | nil => simp
      | cons b t2 =>
        exact List.rel_of_sorted_cons hs _ (getLastD_mem (b :: t2) x (by simp))
    · exact ih hs.of_cons a x hxt

theorem getLastD_le_of_sorted (l : List ℚ) (hs : l.Sorted (· ≥ ·)) :
    ∀ d, ∀ x ∈ l, l.getLastD d ≤ x := by
  induction l with
  | nil => intro d x hx; cases hx
  | cons a t ih =>
    intro d x hx
    rw [List.getLastD_cons]
    rcases List.mem_cons.1 hx with rfl | hxt
    · cases t with
      | nil => simp
      | cons b t2 =>
        exact List.rel_of_sorted_cons hs _ (getLastD_mem (b :: t2) x (by simp))
    · exact ih hs.of_cons a x hxt

theorem sweepCost_ge_mul (b : ℚ) (ls : List OrderbookLevel)
    (hq : ∀ l ∈ ls, 0 < l.quantity) (hge : ∀ l ∈ ls, b ≤ l.price) :
    b * totalQuantity ls ≤ sweepCost ls := by
  induction ls with
  | nil => simp [totalQuantity, sweepCost]
  | cons l rest ih =>
    rw [totalQuantity_cons, sweepCost_cons]
    have h1 : 0 < l.quantity := hq l (List.mem_cons_self _ _)
    have h2 : b ≤ l.price := hge l (List.mem_cons_self _ _)
    have h3 := ih (fun x hx => hq x (List.mem_cons_of_mem _ hx))
      (fun x hx => hge x (List.mem_cons_of_mem _ hx))
    nlinarith

theorem sweepCost_le_mul (b : ℚ) (ls : List OrderbookLevel)
    (hq : ∀ l ∈ ls, 0 < l.quantity) (hle : ∀ l ∈ ls, l.price ≤ b) :
    sweepCost ls ≤ b * totalQuantity ls := by
  induction ls with
  | nil => simp [totalQuantity, sweepCost]
  | cons l rest ih =>
    rw [totalQuantity_cons, sweepCost_cons]
    have h1 : 0 < l.quantity := hq l (List.mem_cons_self _ _)
    have h2 : l.price ≤ b := hle l (List.mem_cons_self _ _)
    have h3 := ih (fun x hx => hq x (List.mem_cons_of_mem _ hx))
      (fun x hx => hle x (List.mem_cons_of_mem _ hx))
    nlinarith

theorem mul_lt_sweepCost (b : ℚ) (ls : List OrderbookLevel)
    (hq : ∀ l ∈ ls, 0 < l.quantity) (hge : ∀ l ∈ ls, b ≤ l.price)
    (hex : ∃ l ∈ ls, b < l.price) :
    b * totalQuantity ls < sweepCost ls := by
  induction ls with
  | nil => rcases hex with ⟨l, hl, _⟩; cases hl
  | cons l rest ih =>
    rw [totalQuantity_cons, sweepCost_cons]
    have h1 : 0 < l.quantity := hq l (List.mem_cons_self _ _)
    have h2 : b ≤ l.price := hge l (List.mem_cons_self _ _)
    have hqr : ∀ x ∈ rest, 0 < x.quantity := fun x hx => hq x (List.mem_cons_of_mem _ hx)
    have hgr : ∀ x ∈ rest, b ≤ x.price := fun x hx => hge x (List.mem_cons_of_mem _ hx)
    rcases hex with ⟨w, hw, hbw⟩
    rcases List.mem_cons.1 hw with rfl | hwrest
    · have h3 := sweepCost_ge_mul b rest hqr hgr
      nlinarith
    · have h3 := ih hqr hgr ⟨w, hwrest, hbw⟩
      nlinarith

theorem sweepCost_lt_mul (b : ℚ) (ls : List OrderbookLevel)
    (hq : ∀ l ∈ ls, 0 < l.quantity) (hle : ∀ l ∈ ls, l.price ≤ b)
    (hex : ∃ l ∈ ls, l.price < b) :
    sweepCost ls < b * totalQuantity ls := by
  induction ls with
  | nil => rcases hex with ⟨l, hl, _⟩; cases hl
  | cons l rest ih =>
    rw [totalQuantity_cons, sweepCost_cons]
    have h1 : 0 < l.quantity := hq l (List.mem_cons_self _ _)
    have h2 : l.price ≤ b := hle l (List.mem_cons_self _ _)
    have hqr : ∀ x ∈ rest, 0 < x.quantity := fun x hx => hq x (List.mem_cons_of_mem _ hx)
    have hgr : ∀ x ∈ rest, x.price ≤ b := fun x hx => hle x (List.mem_cons_of_mem _ hx)
    rcases hex with ⟨w, hw, hbw⟩
    rcases List.mem_cons.1 hw with rfl | hwrest
    · have h3 := sweepCost_le_mul b rest hqr hgr
      nlinarith
    · have h3 := ih hqr hgr ⟨w, hwrest, hbw⟩
      nlinarith

theorem calculateMarketImpact_buy_eq (data : OrderbookData) (t : ℚ)
    (best : OrderbookLevel) (rest : List OrderbookLevel)
    (hls : sortLevelsAsc data.asks = best :: rest)
    (hq : ∀ l ∈ data.asks, 0 < l.quantity)
    (ht : totalQuantity data.asks ≤ t) :
    calculateMarketImpact data t TradeSide.buy =
      { averagePrice := sweepCost (best :: rest) / totalQuantity data.asks
        priceImpact := |(sweepCost (best :: rest) / totalQuantity data.asks - best.price) /
          best.price| * 100
        slippage := |(((best :: rest).map (·.price)).getLastD best.price - best.price) /
          best.price| * 100
        worstPrice := ((best :: rest).map (·.price)).getLastD best.price
        executionTime := ((best :: rest).length : ℚ) * (1 / 10) } := by
  have hperm : List.Perm (best :: rest) data.asks :=
    hls ▸ List.perm_insertionSort byPriceAsc data.asks
  have hqls : ∀ l ∈ best :: rest, 0 < l.quantity := fun l hl => hq l (hperm.subset hl)
  have hsum : totalQuantity (best :: rest) = totalQuantity data.asks := by
    unfold totalQuantity
    exact (hperm.map (·.quantity)).sum_eq
  have hwalk := walkLevels_of_le_sum (best :: rest) hqls t 0 best.price 0
    (by rw [hsum]; exact ht)
  simp only [calculateMarketImpact, hls, hwalk, hsum, zero_add]
  congr 1 <;> rw [sub_sub_cancel]

theorem calculateMarketImpact_sell_eq (data : OrderbookData) (t : ℚ)
    (best : OrderbookLevel) (rest : List OrderbookLevel)
    (hls : sortLevelsDesc data.bids = best :: rest)
    (hq : ∀ l ∈ data.bids, 0 < l.quantity)
    (ht : totalQuantity data.bids ≤ t) :
    calculateMarketImpact data t TradeSide.sell =
      { averagePrice := sweepCost (best :: rest) / totalQuantity data.bids
        priceImpact := |(sweepCost (best :: rest) / totalQuantity data.bids - best.price) /
          best.price| * 100
        slippage := |(((best :: rest).map (·.price)).getLastD best.price - best.price) /
          best.price| * 100
        worstPrice := ((best :: rest).map (·.price)).getLastD best.price
        executionTime := ((best :: rest).length : ℚ) * (1 / 10) } := by
  have hperm : List.Perm (best :: rest) data.bids :=
    hls ▸ List.perm_insertionSort byPriceDesc data.bids
  have hqls : ∀ l ∈ best :: rest, 0 < l.quantity := fun l hl => hq l (hperm.subset hl)
  have hsum : totalQuantity (best :: rest) = totalQuantity data.bids := by
    unfold totalQuantity
    exact (hperm.map (·.quantity)).sum_eq
  have hwalk := walkLevels_of_le_sum (best :: rest) hqls t 0 best.price 0
    (by rw [hsum]; exact ht)
  simp only [calculateMarketImpact, hls, hwalk, hsum, zero_add]
  congr 1 <;> rw [sub_sub_cancel]

/-- Claim C1: for every snapshot whose opposite side is non-empty (with
positive prices and quantities), `calculateMarketImpact(data, tradeSize,
side)` walks the opposite side best-price-first consuming `tradeSize`.
(a) When `tradeSize` is at least the total available depth, it returns the
partial-fill result computed over the consumed portion only — identical to
the result of requesting exactly the total depth — and, being a total
function, never raises an error.  (b) At `tradeSize` equal to the total
available depth, `worstPrice` is the price of the last (deepest) level
consumed: it is a price occurring in the book, maximal among the ask
prices for a buy and minimal among the bid prices for a sell.  (c) In that
case `priceImpact > 0` for any book whose levels are not all at the best
price. -/
theorem claim1_marketImpact (data : OrderbookData) (tradeSize : ℚ) (side : TradeSide)
    (hq : ∀ l ∈ oppositeLevels data side, 0 < l.quantity)
    (hp : ∀ l ∈ oppositeLevels data side, 0 < l.price)
    (hne : oppositeLevels data side ≠ []) :
    (availableDepth data side ≤ tradeSize →
      calculateMarketImpact data tradeSize side =
        calculateMarketImpact data (availableDepth data side) side) ∧
    ((calculateMarketImpact data (availableDepth data side) side).worstPrice ∈
      (oppositeLevels data side).map (·.price) ∧
     (side = TradeSide.buy → ∀ l ∈ oppositeLevels data side,
        l.price ≤ (calculateMarketImpact data (availableDepth data side) side).worstPrice) ∧
     (side = TradeSide.sell → ∀ l ∈ oppositeLevels data side,
        (calculateMarketImpact data (availableDepth data side) side).worstPrice ≤ l.price)) ∧
    ((∃ l1 ∈ oppositeLevels data side, ∃ l2 ∈ oppositeLevels data side,
        l1.price ≠ l2.price) →
      0 < (calculateMarketImpact data (availableDepth data side) side).priceImpact) := by
  cases side with
  | buy =>
    simp only [oppositeLevels, availableDepth] at hq hp hne ⊢
    have hperm0 : List.Perm (sortLevelsAsc data.asks) data.asks :=
      List.perm_insertionSort byPriceAsc data.asks
    have hsne : sortLevelsAsc data.asks ≠ [] := by
      intro h0
      exact hne (List.Perm.eq_nil (h0 ▸ hperm0.symm))
    obtain ⟨best, rest, hls⟩ := List.exists_cons_of_ne_nil hsne
    have hperm : List.Perm (best :: rest) data.asks := hls ▸ hperm0
    have hqs : ∀ l ∈ best :: rest, 0 < l.quantity := fun l hl => hq l (hperm.subset hl)
    have hsum : totalQuantity (best :: rest) = totalQuantity data.asks := by
      unfold totalQuantity
      exact (hperm.map (·.quantity)).sum_eq
    have hsort : (best :: rest).Sorted byPriceAsc :=
      hls ▸ List.sorted_insertionSort byPriceAsc data.asks
    have hpriceSorted : ((best :: rest).map (·.price)).Sorted (· ≤ ·) :=
      List.pairwise_map.mpr hsort
    have hres := calculateMarketImpact_buy_eq data (totalQuantity data.asks) best rest
      hls hq le_rfl
    refine ⟨?_, ⟨?_, ?_, ?_⟩, ?_⟩
    · intro hts
      rw [calculateMarketImpact_buy_eq data tradeSize best rest hls hq hts, hres]
    · rw [hres]
      have hmem := getLastD_mem ((best :: rest).map (·.price)) best.price (by simp)
      exact ((hperm.map (·.price)).mem_iff).1 hmem
    · intro _ l hl
      rw [hres]
      have hl2 : l.price ∈ (best :: rest).map (·.price) :=
        List.mem_map_of_mem (·.price) ((hperm.mem_iff).2 hl)
      exact le_getLastD_of_sorted _ hpriceSorted best.price l.price hl2
    · intro h
      exact absurd h (by decide)
    · rintro ⟨l1, hl1, l2, hl2, hne12⟩
      rw [hres]
      have hbm : best ∈ best :: rest := List.mem_cons_self best rest
      have hbestpos : 0 < best.price := hp best (hperm.subset hbm)
      have hge : ∀ l ∈ best :: rest, best.price ≤ l.price := by
        intro l hl
        rcases List.mem_cons.1 hl with rfl | hlt
        · exact le_rfl
        · exact List.rel_of_sorted_cons hsort l hlt
      have hl1m : l1 ∈ best :: rest := (hperm.mem_iff).2 hl1
      have hl2m : l2 ∈ best :: rest := (hperm.mem_iff).2 hl2
      have hex : ∃ l ∈ best :: rest, best.price < l.price := by
        by_cases h1 : l1.price = best.price
        · exact ⟨l2, hl2m, lt_of_le_of_ne (hge l2 hl2m) (fun h2 => hne12 (h1.trans h2))⟩
        · exact ⟨l1, hl1m, lt_of_le_of_ne (hge l1 hl1m) (Ne.symm h1)⟩
      have hQpos : 0 < totalQuantity data.asks := hsum ▸ totalQuantity_pos best rest hqs
      have hlt := mul_lt_sweepCost best.price (best :: rest) hqs hge hex
      have havg : best.price < sweepCost (best :: rest) / totalQuantity data.asks := by
        rw [lt_div_iff hQpos, ← hsum]
        exact hlt
      have habs : 0 < |(sweepCost (best :: rest) / totalQuantity data.asks - best.price) /
          best.price| :=
        abs_pos.mpr (ne_of_gt (div_pos (sub_pos.2 havg) hbestpos))
      have : (0 : ℚ) < 100 := by norm_num
      exact mul_pos habs this
  | sell =>
    simp only [oppositeLevels, availableDepth] at hq hp hne ⊢
    have hperm0 : List.Perm (sortLevelsDesc data.bids) data.bids :=
      List.perm_insertionSort byPriceDesc data.bids
    have hsne : sortLevelsDesc data.bids ≠ [] := by
      intro h0
      exact hne (List.Perm.eq_nil (h0 ▸ hperm0.symm))
    obtain ⟨best, rest, hls⟩ := List.exists_cons_of_ne_nil hsne
    have hperm : List.Perm (best :: rest) data.bids := hls ▸ hperm0
    have hqs : ∀ l ∈ best :: rest, 0 < l.quantity := fun l hl => hq l (hperm.subset hl)
    have hsum : totalQuantity (best :: rest) = totalQuantity data.bids := by
      unfold totalQuantity
      exact (hperm.map (·.quantity)).sum_eq
    have hsort : (best :: rest).Sorted byPriceDesc :=
      hls ▸ List.sorted_insertionSort byPriceDesc data.bids
    have hpriceSorted : ((best :: rest).map (·.price)).Sorted (· ≥ ·) :=
      List.pairwise_map.mpr hsort
    have hres := calculateMarketImpact_sell_eq data (totalQuantity data.bids) best rest
      hls hq le_rfl
    refine ⟨?_, ⟨?_, ?_, ?_⟩, ?_⟩
    · intro hts
      rw [calculateMarketImpact_sell_eq data tradeSize best rest hls hq hts, hres]
    · rw [hres]
      have hmem := getLastD_mem ((best :: rest).map (·.price)) best.price (by simp)
      exact ((hperm.map (·.price)).mem_iff).1 hmem
    · intro h
      exact absurd h (by decide)
    · intro _ l hl
      rw [hres]
      have hl2 : l.price ∈ (best :: rest).map (·.price) :=
        List.mem_map_of_mem (·.price) ((hperm.mem_iff).2 hl)
      exact getLastD_le_of_sorted _ hpriceSorted best.price l.price hl2
    · rintro ⟨l1, hl1, l2, hl2, hne12⟩
      rw [hres]
      have hbm : best ∈ best :: rest := List.mem_cons_self best rest
      have hbestpos : 0 < best.price := hp best (hperm.subset hbm)
      have hle : ∀ l ∈ best :: rest, l.price ≤ best.price := by
        intro l hl
        rcases List.mem_cons.1 hl with rfl | hlt
        · exact le_rfl
        · exact List.rel_of_sorted_cons hsort l hlt
      have hl1m : l1 ∈ best :: rest := (hperm.mem_iff).2 hl1
      have hl2m : l2 ∈ best :: rest := (hperm.mem_iff).2 hl2
      have hex : ∃ l ∈ best :: rest, l.price < best.price := by
        by_cases h1 : l1.price = best.price
        · exact ⟨l2, hl2m, lt_of_le_of_ne (hle l2 hl2m) (fun h2 => hne12 (h1.trans h2.symm))⟩
        · exact ⟨l1, hl1m, lt_of_le_of_ne (hle l1 hl1m) h1⟩
      have hQpos : 0 < totalQuantity data.bids := hsum ▸ totalQuantity_pos best rest hqs
      have hlt := sweepCost_lt_mul best.price (best :: rest) hqs hle hex
      have havg : sweepCost (best :: rest) / totalQuantity data.bids < best.price := by
        rw [div_lt_iff hQpos, ← hsum]
        exact hlt
      have habs : 0 < |(sweepCost (best :: rest) / totalQuantity data.bids - best.price) /
          best.price| :=
        abs_pos.mpr (ne_of_lt (div_neg_of_neg_of_pos (sub_neg.2 havg) hbestpos))
      have : (0 : ℚ) < 100 := by norm_num
      exact mul_pos habs this

theorem claim1_marketImpact_witness :
    calculateMarketImpact impactData 10 TradeSide.buy =
      calculateMarketImpact impactData 5 TradeSide.buy ∧
    0 < (calculateMarketImpact impactData 5 TradeSide.buy).priceImpact := by
  have havail : availableDepth impactData TradeSide.buy = 5 := by
    norm_num [availableDepth, oppositeLevels, impactData, totalQuantity]
  have h := claim1_marketImpact impactData 10 TradeSide.buy (by decide) (by decide) (by decide)
  rw [havail] at h
  refine ⟨h.1 (by norm_num), h.2.2 ?_⟩
  exact ⟨{ price := 101, quantity := 2 }, by decide, { price := 102, quantity := 3 },
    by decide, by decide⟩

theorem clusterLoop_join (rest : List OrderbookLevel) :
    ∀ currRev lastIn, (clusterLoop currRev lastIn rest).flatten =
      currRev.reverse ++ lastIn :: rest := by
  induction rest with
  | nil =>
    intro currRev lastIn
    simp [clusterLoop]
  | cons l rest ih =>
    intro currRev lastIn
    rw [clusterLoop]
    by_cases h : weightedDistance lastIn l ≤ clusterDistance
    · rw [if_pos h, ih]
      simp
    · rw [if_neg h]
      simp [ih]

theorem clusterLoop_current_mem (rest : List OrderbookLevel) :
    ∀ currRev lastIn, ∃ c ∈ clusterLoop currRev lastIn rest,
      ∀ x ∈ lastIn :: currRev, x ∈ c := by
  induction rest with
  | nil =>
    intro currRev lastIn
    refine ⟨(lastIn :: currRev).reverse, by simp [clusterLoop], ?_⟩
    intro x hx
    rw [List.mem_reverse]
    exact hx
  | cons l rest ih =>
    intro currRev lastIn
    by_cases h : weightedDistance lastIn l ≤ clusterDistance
    · obtain ⟨c, hc, hmem⟩ := ih (lastIn :: currRev) l
      refine ⟨c, ?_, ?_⟩
      · rw [clusterLoop, if_pos h]
        exact hc
      · intro x hx
        exact hmem x (List.mem_cons_of_mem l hx)
    · refine ⟨(lastIn :: currRev).reverse, ?_, ?_⟩
      · rw [clusterLoop, if_neg h]
        exact List.mem_cons_self _ _
      · intro x hx
        rw [List.mem_reverse]
        exact hx

theorem mem_of_mem_clusterLoop (rest : List OrderbookLevel)
    {currRev : List OrderbookLevel} {lastIn : OrderbookLevel}
    {c : List OrderbookLevel} {x : OrderbookLevel}
    (hc : c ∈ clusterLoop currRev lastIn rest) (hx : x ∈ c) :
    x ∈ currRev.reverse ++ lastIn :: rest := by
  rw [← clusterLoop_join rest currRev lastIn]
  exact List.mem_flatten.mpr ⟨c, hc, hx⟩

theorem clusterLoop_adjacent_iff (rest : List OrderbookLevel) :
    ∀ currRev lastIn pre a b post,
      (currRev.reverse ++ lastIn :: rest).Nodup →
      lastIn :: rest = pre ++ a :: b :: post →
      ((∃ c ∈ clusterLoop currRev lastIn rest, a ∈ c ∧ b ∈ c) ↔
        weightedDistance a b ≤ clusterDistance) := by
  induction rest with
  | nil =>
    intro currRev lastIn pre a b post _ heq
    exfalso
    have hlen := congrArg List.length heq
    simp [List.length_append] at hlen
    omega
  | cons l rest ih =>
    intro currRev lastIn pre a b post hnd heq
    have hndr : (lastIn :: l :: rest).Nodup := hnd.of_append_right
    cases pre with
    | nil =>
      simp only [List.nil_append] at heq
      injection heq with h1 h2
      injection h2 with h2a h2b
      subst h1
      subst h2a
      by_cases h : weightedDistance lastIn l ≤ clusterDistance
      · constructor
        · intro _
          exact h
        · intro _
          rw [clusterLoop, if_pos h]
          obtain ⟨c, hc, hmem⟩ := clusterLoop_current_mem rest (lastIn :: currRev) l
          exact ⟨c, hc, hmem lastIn (by simp), hmem l (by simp)⟩
      · constructor
        · rintro ⟨c, hc, hac, hbc⟩
          exfalso
          rw [clusterLoop, if_neg h] at hc
          have hanotin : lastIn ∉ l :: rest := (List.nodup_cons.1 hndr).1
          rcases List.mem_cons.1 hc with rfl | hctail
          · have hbl : l ∈ currRev.reverse ++ [lastIn] := by
              simpa using hbc
            rcases List.mem_append.1 hbl with hmem | hmem
            · exact List.disjoint_of_nodup_append hnd hmem (by simp)
            · have : l = lastIn := by simpa using hmem
              exact hanotin (this ▸ List.mem_cons_self l rest)
          · have := mem_of_mem_clusterLoop rest hctail hac
            simp only [List.reverse_nil, List.nil_append] at this
            exact hanotin this
        · intro hwd
          exact absurd hwd h
    | cons p pre2 =>
      injection heq with h1 h2
      subst h1
      by_cases h : weightedDistance lastIn l ≤ clusterDistance
      · rw [clusterLoop, if_pos h]
        refine ih (lastIn :: currRev) l pre2 a b post ?_ h2
        have : (lastIn :: currRev).reverse ++ l :: rest =
            currRev.reverse ++ lastIn :: l :: rest := by
          simp
        rw [this]
        exact hnd
      · rw [clusterLoop, if_neg h]
        have hab1 : a ∈ l :: rest := by
          rw [h2]
          exact List.mem_append.2 (Or.inr (List.mem_cons_self a _))
        have hab2 : b ∈ l :: rest := by
          rw [h2]
          exact List.mem_append.2 (Or.inr (List.mem_cons_of_mem a (List.mem_cons_self b _)))
        have hlastnotin : lastIn ∉ l :: rest := (List.nodup_cons.1 hndr).1
        have hnd2 : (([] : List OrderbookLevel).reverse ++ l :: rest).Nodup := by
          simpa using (List.nodup_cons.1 hndr).2
        have hiff := ih [] l pre2 a b post hnd2 h2
        rw [← hiff]
        constructor
        · rintro ⟨c, hc, hac, hbc⟩
          rcases List.mem_cons.1 hc with rfl | hctail
          · exfalso
            have haf : a ∈ currRev.reverse ++ [lastIn] := by
              simpa using hac
            rcases List.mem_append.1 haf with hmem | hmem
            · exact List.disjoint_of_nodup_append hnd hmem
                (List.mem_cons_of_mem lastIn hab1)
            · have : a = lastIn := by simpa using hmem
              exact hlastnotin (this ▸ hab1)
          · exact ⟨c, hctail, hac, hbc⟩
        · rintro ⟨c, hc, hac, hbc⟩
          exact ⟨c, List.mem_cons_of_mem _ hc, hac, hbc⟩

/-- Claim C3: for every list of price levels with positive prices and
quantities (and, as the data model guarantees for an order-book side,
pairwise-distinct prices), the clustering pass sorts levels ascending by
price and, in one forward scan, places two adjacent levels of the sorted
order in one cluster exactly when the weighted distance — raw relative
price distance times `1 + (1 - minQty / maxQty)` — is at most
`clusterDistance = 0.005`.  Consequently adjacent levels with equal
quantities and raw distance within the threshold always share a cluster,
and adjacent levels whose raw distance exceeds `2 × 0.005` never share
one, whatever their quantities. -/
theorem claim3_clustering (levels : List OrderbookLevel)
    (hq : ∀ l ∈ levels, 0 < l.quantity)
    (hp : ∀ l ∈ levels, 0 < l.price)
    (hdp : levels.Pairwise (fun x y => x.price ≠ y.price))
    (pre post : List OrderbookLevel) (a b : OrderbookLevel)
    (hsplit : sortLevelsAsc levels = pre ++ a :: b :: post) :
    ((∃ c ∈ enhancedClusterLevels levels, a ∈ c ∧ b ∈ c) ↔
      weightedDistance a b ≤ clusterDistance) ∧
    (a.quantity = b.quantity → |b.price - a.price| / a.price ≤ clusterDistance →
      ∃ c ∈ enhancedClusterLevels levels, a ∈ c ∧ b ∈ c) ∧
    (2 * clusterDistance < |b.price - a.price| / a.price →
      ¬ ∃ c ∈ enhancedClusterLevels levels, a ∈ c ∧ b ∈ c) := by
  have hperm : List.Perm (sortLevelsAsc levels) levels :=
    List.perm_insertionSort byPriceAsc levels
  have hndlv : levels.Nodup :=
    hdp.imp (fun hne he => absurd (congrArg OrderbookLevel.price he) hne)
  have hnds : (sortLevelsAsc levels).Nodup := (hperm.nodup_iff).2 hndlv
  have hsne : sortLevelsAsc levels ≠ [] := by
    rw [hsplit]
    simp
  obtain ⟨x, rest, hs⟩ := List.exists_cons_of_ne_nil hsne
  have hcl : enhancedClusterLevels levels = clusterLoop [] x rest := by
    unfold enhancedClusterLevels
    rw [hs]
  have hxr : x :: rest = pre ++ a :: b :: post := hs ▸ hsplit
  have hnds2 : (([] : List OrderbookLevel).reverse ++ x :: rest).Nodup := by
    rw [← hs]
    simpa using hnds
  have hiff := clusterLoop_adjacent_iff rest [] x pre a b post hnds2 hxr
  rw [hcl]
  have hamem : a ∈ levels := by
    refine hperm.subset ?_
    rw [hsplit]
    exact List.mem_append.2 (Or.inr (List.mem_cons_self a _))
  have hbmem : b ∈ levels := by
    refine hperm.subset ?_
    rw [hsplit]
    exact List.mem_append.2 (Or.inr (List.mem_cons_of_mem a (List.mem_cons_self b _)))
  have haq : 0 < a.quantity := hq a hamem
  have hbq : 0 < b.quantity := hq b hbmem
  have hap : 0 < a.price := hp a hamem
  refine ⟨hiff, ?_, ?_⟩
  · intro hqeq hraw
    rw [hiff, weightedDistance, hqeq, min_self, max_self,
      div_self (ne_of_gt hbq)]
    calc |b.price - a.price| / a.price * (1 + (1 - 1))
        = |b.price - a.price| / a.price := by ring
      _ ≤ clusterDistance := hraw
  · intro hraw hsame
    rw [hiff] at hsame
    have hrawpos : 0 < |b.price - a.price| / a.price := by
      have : (0 : ℚ) < clusterDistance := by norm_num [clusterDistance]
      linarith
    have hmaxpos : 0 < max b.quantity a.quantity := lt_max_of_lt_right haq
    have hw1 : min b.quantity a.quantity / max b.quantity a.quantity ≤ 1 :=
      (div_le_one hmaxpos).2 (min_le_max)
    have hm1 : (1 : ℚ) ≤ 1 + (1 - min b.quantity a.quantity / max b.quantity a.quantity) := by
      linarith
    rw [weightedDistance] at hsame
    have hge : |b.price - a.price| / a.price ≤
        |b.price - a.price| / a.price *
          (1 + (1 - min b.quantity a.quantity / max b.quantity a.quantity)) := by
      nlinarith [mul_nonneg (le_of_lt hrawpos) (sub_nonneg.2 hm1)]
    have : (0 : ℚ) < clusterDistance := by norm_num [clusterDistance]
    linarith

theorem claim3_clustering_witness :
    ∃ c ∈ enhancedClusterLevels
        [{ price := 1000, quantity := 1 }, { price := 1001, quantity := 1 }],
      ({ price := 1000, quantity := 1 } : OrderbookLevel) ∈ c ∧
      ({ price := 1001, quantity := 1 } : OrderbookLevel) ∈ c := by
  have h := claim3_clustering
    [{ price := 1000, quantity := 1 }, { price := 1001, quantity := 1 }]
    (by decide) (by decide)
    (by simp [List.pairwise_cons])
    [] [] { price := 1000, quantity := 1 } { price := 1001, quantity := 1 }
    (by decide)
  exact h.2.1 rfl (by norm_num [clusterDistance])

/-- Claim C4: for every non-empty side, a cluster produced by the
clustering pass appears as a `PressureZone` in the detector's output if
and only if its total quantity is at least `volumeThreshold` (10%) of the
side's total volume: every admitted cluster's zone is in the output, and
every output zone comes from a cluster at or above the threshold. -/
theorem claim4_zoneAdmission (hist : List PressureZone)
    (levels : List OrderbookLevel) (type : Side) (timestamp : ℚ)
    (hne : levels ≠ []) :
    (∀ c ∈ enhancedClusterLevels levels,
      totalQuantity levels * volumeThreshold ≤ totalQuantity c →
        mkZone hist c (totalQuantity levels) type timestamp ∈
          detectZonesInLevels hist levels type timestamp) ∧
    (∀ z ∈ detectZonesInLevels hist levels type timestamp,
      ∃ c ∈ enhancedClusterLevels levels,
        totalQuantity levels * volumeThreshold ≤ totalQuantity c ∧
        z = mkZone hist c (totalQuantity levels) type timestamp) := by
  constructor
  · intro c hc hvol
    exact (mem_detectZonesInLevels hist levels type timestamp hne _).2 ⟨c, hc, hvol, rfl⟩
  · intro z hz
    exact (mem_detectZonesInLevels hist levels type timestamp hne z).1 hz

theorem enhancedClusterLevels_zoneLevels :
    enhancedClusterLevels zoneLevels =
      [[{ price := 100, quantity := 5 }], [{ price := 200, quantity := 15 }]] := by
  norm_num [enhancedClusterLevels, sortLevelsAsc, List.insertionSort, List.orderedInsert,
    byPriceAsc, clusterLoop, weightedDistance, clusterDistance, zoneLevels, min_def, max_def]

theorem claim4_zoneAdmission_witness :
    mkZone [] [{ price := 100, quantity := 5 }] (totalQuantity zoneLevels) Side.bid 0 ∈
      detectZonesInLevels [] zoneLevels Side.bid 0 := by
  have h := (claim4_zoneAdmission [] zoneLevels Side.bid 0 (by decide)).1
  refine h [{ price := 100, quantity := 5 }] ?_ ?_
  · rw [enhancedClusterLevels_zoneLevels]
    exact List.mem_cons_self _ _
  · norm_num [totalQuantity, zoneLevels, volumeThreshold]

/-- Claim C5 counterexample: the single-level cluster `[{price 100,
quantity 5}]` of the book `zoneLevels` (total volume 20) is admitted as a
zone; the code assigns it intensity `(5/20) * 1 * (5/5) * 100 = 25`
because `densityFactor` is `1` for a single-level cluster, while the
claimed formula `volumeRatio × log(levelCount) × concentrationFactor ×
100` evaluates to `(5/20) * log 1 * (5/5) * 100 = 0 ≠ 25`. -/
theorem claim5_intensity_counterexample :
    mkZone [] [{ price := 100, quantity := 5 }] (totalQuantity zoneLevels) Side.bid 0 ∈
      detectZonesInLevels [] zoneLevels Side.bid 0 ∧
    (mkZone [] [{ price := 100, quantity := 5 }] (totalQuantity zoneLevels)
      Side.bid 0).intensity = 25 ∧
    claimedIntensity 5 20 1 [{ price := 100, quantity := 5 }] = 0 ∧
    (25 : ℝ) ≠ 0 := by
  refine ⟨(mem_detectZonesInLevels [] zoneLevels Side.bid 0 (by decide) _).2
    ⟨[{ price := 100, quantity := 5 }], ?_, ?_, rfl⟩, ?_, ?_, ?_⟩
  · rw [enhancedClusterLevels_zoneLevels]
    exact List.mem_cons_self _ _
  · norm_num [totalQuantity, zoneLevels, volumeThreshold]
  · show calculateAdvancedIntensity _ _ _ _ = 25
    norm_num [calculateAdvancedIntensity, maxQuantity, totalQuantity, zoneLevels]
  · norm_num [claimedIntensity, Real.log_one]
  · norm_num

/-- Claim C5 (amended): for every admitted pressure zone, the intensity
equals `volumeRatio × densityFactor × concentrationFactor × 100` over its
cluster, where `densityFactor` is `log(levelCount)` when the cluster has
more than one level but `1` for a single-level cluster (the code's
`levelCount > 1 ? Math.log(levelCount) : 1`), not `log(levelCount)`
unconditionally. -/
theorem claim5_zoneIntensity_amended (hist : List PressureZone)
    (levels : List OrderbookLevel) (type : Side) (timestamp : ℚ)
    (hne : levels ≠ []) :
    ∀ z ∈ detectZonesInLevels hist levels type timestamp,
      ∃ c ∈ enhancedClusterLevels levels,
        z.volume = totalQuantity c ∧
        z.intensity = ((totalQuantity c : ℝ) / (totalQuantity levels : ℝ)) *
          (if 1 < c.length then Real.log c.length else 1) *
          ((maxQuantity c : ℝ) / ((totalQuantity c : ℝ) / (c.length : ℝ))) * 100 := by
  intro z hz
  obtain ⟨c, hc, hvol, rfl⟩ :=
    (mem_detectZonesInLevels hist levels type timestamp hne z).1 hz
  exact ⟨c, hc, rfl, rfl⟩

theorem claim5_zoneIntensity_amended_witness :
    ∃ c ∈ enhancedClusterLevels zoneLevels,
      (mkZone [] [{ price := 100, quantity := 5 }] (totalQuantity zoneLevels)
        Side.bid 0).volume = totalQuantity c ∧
      (mkZone [] [{ price := 100, quantity := 5 }] (totalQuantity zoneLevels)
        Side.bid 0).intensity =
          ((totalQuantity c : ℝ) / (totalQuantity zoneLevels : ℝ)) *
          (if 1 < c.length then Real.log c.length else 1) *
          ((maxQuantity c : ℝ) / ((totalQuantity c : ℝ) / (c.length : ℝ))) * 100 := by
  apply claim5_zoneIntensity_amended [] zoneLevels Side.bid 0 (by decide)
  refine (mem_detectZonesInLevels [] zoneLevels Side.bid 0 (by decide) _).2
    ⟨[{ price := 100, quantity := 5 }], ?_, ?_, rfl⟩
  · rw [enhancedClusterLevels_zoneLevels]
    exact List.mem_cons_self _ _
  · norm_num [totalQuantity, zoneLevels, volumeThreshold]

/-- Claim C2 (code evidence): the heatmap emits no ask cells at all, for
any input.  The ask accumulation guard of the source compares `ask.price`
to the `priceRange` array itself (always false after JavaScript's `NaN`
coercion), so `askVolume` remains `0` in every cell and only bid cells
are ever pushed — ask cells are not emitted symmetrically to bid cells as
the specification describes. -/
theorem claim2_heatmap_no_ask_cells (orderbooks : List OrderbookData)
    (timeWindow : ℚ) (now : ℚ) :
    (generateMarketDepthHeatmap orderbooks timeWindow now).filter
      (fun cell => decide (cell.type = Side.ask)) = [] := by
  rw [List.filter_eq_nil_iff]
  intro cell hcell
  unfold generateMarketDepthHeatmap at hcell
  by_cases hobs : orderbooks.isEmpty
  · rw [if_pos hobs] at hcell
    cases hcell
  · rw [if_neg hobs] at hcell
    simp only [List.mem_flatMap, List.mem_range] at hcell
    obtain ⟨t, _, p, _, hmem⟩ := hcell
    rw [show ∀ lo hi, (fun ask => askLowerBoundCheck ask.price lo hi &&
        decide (ask.price < hi)) = (fun _ : OrderbookLevel => false) from
      fun lo hi => by
        funext ask
        simp [askLowerBoundCheck]] at hmem
    simp only [List.filter_false, List.map_nil, List.sum_nil] at hmem
    simp only [List.map_const', List.sum_replicate, smul_zero, lt_self_iff_false,
      if_false, List.append_nil] at hmem
    split at hmem
    · rcases List.mem_singleton.1 hmem with rfl
      simp
    · cases hmem

theorem sum_range_cast (n : ℕ) :
    ∑ i in Finset.range n, (i : ℚ) = n * (n - 1) / 2 := by
  induction n with
  | zero => simp
  | succ m ih =>
    rw [Finset.sum_range_succ, ih]
    push_cast
    ring

theorem sum_range_sq_cast (n : ℕ) :
    ∑ i in Finset.range n, (i : ℚ) * i = n * (n - 1) * (2 * n - 1) / 6 := by
  induction n with
  | zero => simp
  | succ m ih =>
    rw [Finset.sum_range_succ, ih]
    push_cast
    ring

theorem list_sum_eq_sum_getD (l : List ℚ) :
    l.sum = ∑ i in Finset.range l.length, l.getD i 0 := by
  induction l with
  | nil => simp
  | cons a t ih =>
    rw [List.sum_cons, ih, List.length_cons, Finset.sum_range_succ']
    simp [add_comm]

theorem weighted_sum_nonneg (n : ℕ) (hn : 1 ≤ n) (z : ℕ → ℚ)
    (hmono : ∀ i j, i ≤ j → j < n → z i ≤ z j) :
    0 ≤ ∑ i in Finset.range n, ((n : ℚ) * i - n * (n - 1) / 2) * z i := by
  have hkn : n / 2 < n := Nat.div_lt_self (by omega) (by omega)
  have hzero : ∑ i in Finset.range n, ((n : ℚ) * i - n * (n - 1) / 2) = 0 := by
    rw [Finset.sum_sub_distrib, ← Finset.mul_sum, sum_range_cast, Finset.sum_const,
      Finset.card_range, nsmul_eq_mul]
    ring
  have hrw : ∑ i in Finset.range n, ((n : ℚ) * i - n * (n - 1) / 2) * z i =
      ∑ i in Finset.range n, ((n : ℚ) * i - n * (n - 1) / 2) * (z i - z (n / 2)) := by
    have : ∑ i in Finset.range n, ((n : ℚ) * i - n * (n - 1) / 2) * (z i - z (n / 2)) =
        ∑ i in Finset.range n, ((n : ℚ) * i - n * (n - 1) / 2) * z i -
          (∑ i in Finset.range n, ((n : ℚ) * i - n * (n - 1) / 2)) * z (n / 2) := by
      rw [Finset.sum_mul, ← Finset.sum_sub_distrib]
      exact Finset.sum_congr rfl fun i _ => by ring
    rw [this, hzero]
    ring
  rw [hrw]
  refine Finset.sum_nonneg ?_
  intro i hi
  rw [Finset.mem_range] at hi
  have hnn : (0 : ℚ) ≤ (n : ℚ) := Nat.cast_nonneg n
  by_cases hik : i < n / 2
  · have h2i : 2 * i + 2 ≤ n := by omega
    have hc : (2 * (i : ℚ) + 2) ≤ (n : ℚ) := by exact_mod_cast h2i
    have hw : (n : ℚ) * i - n * (n - 1) / 2 ≤ 0 := by
      nlinarith [mul_nonneg hnn (by linarith : (0 : ℚ) ≤ (n : ℚ) - 2 * (i : ℚ) - 1)]
    have hz : z i - z (n / 2) ≤ 0 := sub_nonpos.2 (hmono i (n / 2) (le_of_lt hik) hkn)
    nlinarith [mul_nonneg (neg_nonneg.2 hw) (neg_nonneg.2 hz)]
  · push_neg at hik
    have h2i : n ≤ 2 * i + 1 := by omega
    have hc : (n : ℚ) ≤ 2 * (i : ℚ) + 1 := by exact_mod_cast h2i
    have hw : 0 ≤ (n : ℚ) * i - n * (n - 1) / 2 := by
      nlinarith [mul_nonneg hnn (by linarith : (0 : ℚ) ≤ 2 * (i : ℚ) + 1 - (n : ℚ))]
    have hz : 0 ≤ z i - z (n / 2) := sub_nonneg.2 (hmono (n / 2) i hik hi)
    exact mul_nonneg hw hz

theorem slope_core (n : ℕ) (hn : 2 ≤ n) (y : ℕ → ℚ) (δ : ℚ)
    (hstep : ∀ i, i + 1 < n → y i + δ ≤ y (i + 1)) :
    δ * ((n : ℚ) * (n * (n - 1) * (2 * n - 1) / 6) - n * (n - 1) / 2 * (n * (n - 1) / 2)) ≤
      (n : ℚ) * (∑ i in Finset.range n, y i * i) -
        n * (n - 1) / 2 * (∑ i in Finset.range n, y i) := by
  have hzmono : ∀ i j, i ≤ j → j < n → y i - δ * i ≤ y j - δ * j := by
    intro i j hij hj
    induction j, hij using Nat.le_induction with
    | base => exact le_rfl
    | succ j hij ih =>
      have hj' : j < n := by omega
      have hs := hstep j (by omega)
      have hnext : y j - δ * j ≤ y (j + 1) - δ * ((j : ℚ) + 1) := by
        linarith
      refine le_trans (ih hj') ?_
      rw [Nat.cast_add, Nat.cast_one]
      exact hnext
  have h0 := weighted_sum_nonneg n (by omega) (fun i => y i - δ * i) hzmono
  have e1 : ∑ i in Finset.range n, ((n : ℚ) * i - n * (n - 1) / 2) * (y i - δ * i) =
      (∑ i in Finset.range n, ((n : ℚ) * i - n * (n - 1) / 2) * y i) -
        δ * (∑ i in Finset.range n, ((n : ℚ) * i - n * (n - 1) / 2) * i) := by
    rw [Finset.mul_sum, ← Finset.sum_sub_distrib]
    exact Finset.sum_congr rfl fun i _ => by ring
  have e2 : (∑ i in Finset.range n, ((n : ℚ) * i - n * (n - 1) / 2) * y i) =
      (n : ℚ) * (∑ i in Finset.range n, y i * i) -
        n * (n - 1) / 2 * (∑ i in Finset.range n, y i) := by
    rw [Finset.mul_sum, Finset.mul_sum, ← Finset.sum_sub_distrib]
    exact Finset.sum_congr rfl fun i _ => by ring
  have e3 : (∑ i in Finset.range n, ((n : ℚ) * i - n * (n - 1) / 2) * (i : ℚ)) =
      (n : ℚ) * (n * (n - 1) * (2 * n - 1) / 6) - n * (n - 1) / 2 * (n * (n - 1) / 2) := by
    have h4 : ∑ i in Finset.range n, ((n : ℚ) * i - n * (n - 1) / 2) * (i : ℚ) =
        (n : ℚ) * (∑ i in Finset.range n, (i : ℚ) * i) -
          n * (n - 1) / 2 * (∑ i in Finset.range n, (i : ℚ)) := by
      rw [Finset.mul_sum, Finset.mul_sum, ← Finset.sum_sub_distrib]
      exact Finset.sum_congr rfl fun i _ => by ring
    rw [h4, sum_range_sq_cast, sum_range_cast]
  rw [e1, e2, e3] at h0
  linarith

theorem calculateTrend_ge (values : List ℚ) (δ : ℚ) (hlen : 2 ≤ values.length)
    (hstep : values.Chain' (fun a b => a + δ ≤ b)) :
    δ ≤ calculateTrend values := by
  have hnl : ¬ values.length < 2 := not_lt.2 hlen
  simp only [calculateTrend, if_neg hnl]
  have hn2 : (2 : ℚ) ≤ (values.length : ℚ) := by exact_mod_cast hlen
  have hDpos : 0 < (values.length : ℚ) *
      ((values.length : ℚ) * ((values.length : ℚ) - 1) * (2 * (values.length : ℚ) - 1) / 6) -
      (values.length : ℚ) * ((values.length : ℚ) - 1) / 2 *
        ((values.length : ℚ) * ((values.length : ℚ) - 1) / 2) := by
    have hfact : (values.length : ℚ) *
        ((values.length : ℚ) * ((values.length : ℚ) - 1) * (2 * (values.length : ℚ) - 1) / 6) -
        (values.length : ℚ) * ((values.length : ℚ) - 1) / 2 *
          ((values.length : ℚ) * ((values.length : ℚ) - 1) / 2) =
        (values.length : ℚ) * (values.length : ℚ) * ((values.length : ℚ) - 1) *
          ((values.length : ℚ) + 1) / 12 := by
      ring
    rw [hfact]
    have h1 : (0 : ℚ) < (values.length : ℚ) := by linarith
    have h2 : (0 : ℚ) < (values.length : ℚ) - 1 := by linarith
    have h3 : (0 : ℚ) < (values.length : ℚ) + 1 := by linarith
    have := mul_pos (mul_pos (mul_pos h1 h1) h2) h3
    linarith
  rw [le_div_iff hDpos]
  have hsteps : ∀ i, i + 1 < values.length →
      values.getD i 0 + δ ≤ values.getD (i + 1) 0 := by
    intro i hi
    have hchain := List.chain'_iff_get.1 hstep i (by omega)
    rw [List.getD_eq_get values 0 (by omega), List.getD_eq_get values 0 (by omega)]
    exact hchain
  have hcore := slope_core values.length hlen (fun i => values.getD i 0) δ hsteps
  rw [list_sum_eq_sum_getD values]
  linarith

theorem calculateTrend_map_neg (values : List ℚ) :
    calculateTrend (values.map (fun x => -x)) = -calculateTrend values := by
  unfold calculateTrend
  by_cases h : values.length < 2
  · rw [if_pos (by simpa using h), if_pos h]
    simp
  · rw [if_neg (by simpa using h), if_neg h]
    have hgetD : ∀ i, (values.map (fun x => -x)).getD i 0 = -(values.getD i 0) := by
      intro i
      by_cases hi : i < values.length
      · rw [List.getD_eq_get _ 0 (by simpa using hi), List.getD_eq_get values 0 hi,
          List.get_map]
      · rw [List.getD_eq_default _ 0 (by simpa using not_lt.1 hi),
          List.getD_eq_default values 0 (not_lt.1 hi)]
        simp
    have hsxy : ∑ i in Finset.range (values.map (fun x => -x)).length,
        (values.map (fun x => -x)).getD i 0 * i =
        -∑ i in Finset.range values.length, values.getD i 0 * i := by
      rw [List.length_map, ← Finset.sum_neg_distrib]
      exact Finset.sum_congr rfl fun i _ => by rw [hgetD]; ring
    have hsy : (values.map (fun x => -x)).sum = -values.sum := by
      rw [list_sum_eq_sum_getD, list_sum_eq_sum_getD, List.length_map,
        ← Finset.sum_neg_distrib]
      exact Finset.sum_congr rfl fun i _ => hgetD i
    rw [hsxy, hsy, List.length_map]
    ring

theorem calculateTrend_const (values : List ℚ) (c : ℚ) (hc : ∀ x ∈ values, x = c) :
    calculateTrend values = 0 := by
  unfold calculateTrend
  by_cases h : values.length < 2
  · rw [if_pos h]
  · rw [if_neg h]
    have hgetD : ∀ i < values.length, values.getD i 0 = c := by
      intro i hi
      rw [List.getD_eq_get values 0 hi]
      exact hc _ (List.get_mem values i hi)
    have h1 : ∑ i in Finset.range values.length, values.getD i 0 * i =
        c * ∑ i in Finset.range values.length, (i : ℚ) := by
      rw [Finset.mul_sum]
      exact Finset.sum_congr rfl fun i hi => by rw [hgetD i (Finset.mem_range.1 hi)]
    have h2 : values.sum = c * values.length := by
      rw [list_sum_eq_sum_getD,
        Finset.sum_congr rfl (fun i hi => hgetD i (Finset.mem_range.1 hi)),
        Finset.sum_const, Finset.card_range, nsmul_eq_mul]
      ring
    rw [h1, h2, sum_range_cast, div_eq_zero_iff]
    left
    ring

/-- Claim C6 (amended): the trend is classified from the linear-regression
slope of the most recent (up to 10) spread samples at the fixed ±0.01
slope threshold.  Every flat (all-equal) window classifies as "stable";
every window whose samples increase by more than 0.01 per sample
classifies as "widening", and every window decreasing by more than 0.01
per sample as "narrowing".  (Strict monotonicity alone does not suffice:
a strictly increasing window of arbitrarily small increments has slope
inside the stable band.) -/
theorem claim6_spreadTrend (history : List SpreadSample) (δ : ℚ) :
    (1 / 100 < δ → 2 ≤ history.length →
      ((history.map (fun s => s.value)).drop (history.length - 10)).Chain'
        (fun a b => a + δ ≤ b) →
      spreadTrendDirection history = SpreadTrend.widening) ∧
    (1 / 100 < δ → 2 ≤ history.length →
      ((history.map (fun s => s.value)).drop (history.length - 10)).Chain'
        (fun a b => b + δ ≤ a) →
      spreadTrendDirection history = SpreadTrend.narrowing) ∧
    (∀ c, (∀ x ∈ (history.map (fun s => s.value)).drop (history.length - 10), x = c) →
      spreadTrendDirection history = SpreadTrend.stable) := by
  refine ⟨?_, ?_, ?_⟩
  · intro hδ hlen hchain
    have hne : ¬ history.length = 0 := by omega
    have hWlen : 2 ≤ ((history.map (fun s => s.value)).drop (history.length - 10)).length := by
      rw [List.length_drop, List.length_map]
      omega
    have hge := calculateTrend_ge _ δ hWlen hchain
    simp only [spreadTrendDirection, List.length_map, if_neg hne]
    rw [if_pos hWlen, if_pos (lt_of_lt_of_le hδ hge)]
  · intro hδ hlen hchain
    have hne : ¬ history.length = 0 := by omega
    have hWlen : 2 ≤ ((history.map (fun s => s.value)).drop (history.length - 10)).length := by
      rw [List.length_drop, List.length_map]
      omega
    have hmapchain : (((history.map (fun s => s.value)).drop (history.length - 10)).map
        (fun x => -x)).Chain' (fun a b => a + δ ≤ b) := by
      rw [List.chain'_map]
      exact hchain.imp (fun a b h => by linarith)
    have hge := calculateTrend_ge _ δ (by rw [List.length_map]; exact hWlen) hmapchain
    rw [calculateTrend_map_neg] at hge
    have htneg : calculateTrend
        ((history.map (fun s => s.value)).drop (history.length - 10)) < -(1 / 100) := by
      linarith
    have hnotpos : ¬ (1 / 100 < calculateTrend
        ((history.map (fun s => s.value)).drop (history.length - 10))) := by
      linarith
    simp only [spreadTrendDirection, List.length_map, if_neg hne]
    rw [if_pos hWlen, if_neg hnotpos, if_pos htneg]
  · intro c hc
    by_cases hne : history.length = 0
    · simp only [spreadTrendDirection, if_pos hne]
    · simp only [spreadTrendDirection, List.length_map, if_neg hne]
      by_cases hW : 2 ≤
          ((history.map (fun s => s.value)).drop (history.length - 10)).length
      · rw [if_pos hW, calculateTrend_const _ c hc]
        norm_num
      · rw [if_neg hW]
        norm_num

/-- Claim C6 counterexample: the strictly increasing spread history `0,
1/1000` has regression slope `1/1000`, which lies inside the ±0.01 stable
band, so the code classifies it as "stable" although the claim requires
every strictly increasing window to classify as "widening". -/
theorem claim6_spreadTrend_counterexample :
    List.Chain' (fun a b : ℚ => a < b)
      ((([{ timestamp := 0, value := 0 },
          { timestamp := 1, value := 1 / 1000 }] : List SpreadSample).map
            (fun s => s.value)).drop (2 - 10)) ∧
    spreadTrendDirection
      [{ timestamp := 0, value := 0 }, { timestamp := 1, value := 1 / 1000 }] =
        SpreadTrend.stable ∧
    SpreadTrend.stable ≠ SpreadTrend.widening := by
  refine ⟨?_, ?_, by decide⟩
  · norm_num [List.chain'_cons, List.chain'_singleton]
  · have h1 : calculateTrend [(0 : ℚ), 1 / 1000] = 1 / 1000 := by
      norm_num [calculateTrend, Finset.sum_range_succ, Finset.sum_range_zero]
    norm_num [spreadTrendDirection, h1]

theorem claim6_spreadTrend_witness :
    spreadTrendDirection [{ timestamp := 0, value := 0 },
      { timestamp := 1, value := 2 / 100 }] = SpreadTrend.widening ∧
    spreadTrendDirection [{ timestamp := 0, value := 2 / 100 },
      { timestamp := 1, value := 0 }] = SpreadTrend.narrowing ∧
    spreadTrendDirection [{ timestamp := 0, value := 7 },
      { timestamp := 1, value := 7 }] = SpreadTrend.stable := by
  refine ⟨(claim6_spreadTrend _ (2 / 100)).1 (by norm_num) (by norm_num) ?_,
    (claim6_spreadTrend _ (2 / 100)).2.1 (by norm_num) (by norm_num) ?_,
    (claim6_spreadTrend _ 0).2.2 7 ?_⟩
  · norm_num [List.chain'_cons, List.chain'_singleton]
  · norm_num [List.chain'_cons, List.chain'_singleton]
  · intro x hx
    simp at hx
    exact hx

theorem addSnapshotHistory_canonical (l : List OrderbookSnapshot) (s : OrderbookSnapshot) :
    addSnapshotHistory (l.drop (l.length - maxSnapshots)) s =
      (l ++ [s]).drop ((l ++ [s]).length - maxSnapshots) := by
  have hlen : (l.drop (l.length - maxSnapshots)).length =
      l.length - (l.length - maxSnapshots) := List.length_drop _ _
  have hlapp : (l ++ [s]).length = l.length + 1 := by simp
  unfold addSnapshotHistory
  by_cases h : l.length < maxSnapshots
  · have h0 : l.length - maxSnapshots = 0 := by omega
    have h1 : (l ++ [s]).length - maxSnapshots = 0 := by omega
    have hcond : ¬ maxSnapshots < (l.drop (l.length - maxSnapshots) ++ [s]).length := by
      rw [List.length_append, hlen]
      simp only [List.length_cons, List.length_nil]
      omega
    simp only [if_neg hcond]
    rw [h0, h1, List.drop_zero, List.drop_zero]
  · push_neg at h
    have hcond : maxSnapshots < (l.drop (l.length - maxSnapshots) ++ [s]).length := by
      rw [List.length_append, hlen]
      simp only [List.length_cons, List.length_nil]
      omega
    simp only [if_pos hcond]
    have hm : 0 < maxSnapshots := by norm_num [maxSnapshots]
    rw [← List.drop_one, List.drop_append_eq_append_drop, List.drop_drop]
    have e1 : 1 - (l.drop (l.length - maxSnapshots)).length = 0 := by omega
    rw [e1, List.drop_zero, List.drop_append_eq_append_drop]
    have e2 : (l ++ [s]).length - maxSnapshots - l.length = 0 := by omega
    rw [e2, List.drop_zero]
    have e3 : l.length - maxSnapshots + 1 = (l ++ [s]).length - maxSnapshots := by omega
    rw [e3]

theorem updateHistoricalZones_canonical (l zs : List PressureZone) :
    updateHistoricalZones (l.drop (l.length - maxHistoryLength)) zs =
      (l ++ zs).drop ((l ++ zs).length - maxHistoryLength) := by
  have hlen : (l.drop (l.length - maxHistoryLength)).length =
      l.length - (l.length - maxHistoryLength) := List.length_drop _ _
  have hlapp : (l ++ zs).length = l.length + zs.length := by simp
  unfold updateHistoricalZones
  by_cases h : maxHistoryLength < (l.drop (l.length - maxHistoryLength) ++ zs).length
  · simp only [if_pos h]
    rw [List.drop_append_eq_append_drop, List.drop_drop, List.drop_append_eq_append_drop]
    have e1 : (l.drop (l.length - maxHistoryLength) ++ zs).length - maxHistoryLength -
        (l.drop (l.length - maxHistoryLength)).length =
        (l ++ zs).length - maxHistoryLength - l.length := by
      simp only [List.length_append, hlen]
      omega
    have e2 : l.length - maxHistoryLength +
        ((l.drop (l.length - maxHistoryLength) ++ zs).length - maxHistoryLength) =
        (l ++ zs).length - maxHistoryLength := by
      simp only [List.length_append, hlen]
      omega
    rw [e1, e2]
  · simp only [if_neg h]
    rw [List.length_append, hlen] at h
    push_neg at h
    by_cases hd : l.length ≤ maxHistoryLength
    · have h0 : l.length - maxHistoryLength = 0 := by omega
      have h1 : (l ++ zs).length - maxHistoryLength = 0 := by omega
      rw [h0, h1, List.drop_zero, List.drop_zero]
    · push_neg at hd
      have hz : zs.length = 0 := by omega
      have hznil : zs = [] := List.length_eq_zero.1 hz
      subst hznil
      rw [List.append_nil, List.append_nil]

theorem foldl_addSnapshotHistory (ops : List OrderbookSnapshot) :
    List.foldl addSnapshotHistory [] ops = ops.drop (ops.length - maxSnapshots) := by
  suffices h : ∀ l, List.foldl addSnapshotHistory (l.drop (l.length - maxSnapshots)) ops =
      (l ++ ops).drop ((l ++ ops).length - maxSnapshots) by
    simpa using h []
  induction ops with
  | nil =>
    intro l
    simp
  | cons s rest ih =>
    intro l
    rw [List.foldl_cons, addSnapshotHistory_canonical l s, ih (l ++ [s])]
    simp [List.append_assoc]

theorem foldl_updateHistoricalZones (batches : List (List PressureZone)) :
    List.foldl updateHistoricalZones [] batches =
      batches.flatten.drop (batches.flatten.length - maxHistoryLength) := by
  suffices h : ∀ l, List.foldl updateHistoricalZones (l.drop (l.length - maxHistoryLength))
      batches = (l ++ batches.flatten).drop ((l ++ batches.flatten).length -
        maxHistoryLength) by
    simpa using h []
  induction batches with
  | nil =>
    intro l
    simp
  | cons zs rest ih =>
    intro l
    rw [List.foldl_cons, updateHistoricalZones_canonical l zs, ih (l ++ zs)]
    simp [List.append_assoc]

/-- Claim C7: starting from empty, both bounded stores — the processor's
per-venue+symbol snapshot history (`addSnapshot`, cap `maxSnapshots =
1000`) and the detector's shared historical-zone store
(`updateHistoricalZones`, cap `maxHistoryLength = 1000`) — hold, after any
sequence of ingest operations, exactly the suffix of the most recently
appended entries: the oldest entries are the ones evicted (FIFO), and the
store never exceeds its cap. -/
theorem claim7_boundedStores :
    (∀ ops : List OrderbookSnapshot,
      List.foldl addSnapshotHistory [] ops = ops.drop (ops.length - maxSnapshots) ∧
      (List.foldl addSnapshotHistory [] ops).length ≤ maxSnapshots) ∧
    (∀ batches : List (List PressureZone),
      List.foldl updateHistoricalZones [] batches =
        batches.flatten.drop (batches.flatten.length - maxHistoryLength) ∧
      (List.foldl updateHistoricalZones [] batches).length ≤ maxHistoryLength) := by
  constructor
  · intro ops
    refine ⟨foldl_addSnapshotHistory ops, ?_⟩
    rw [foldl_addSnapshotHistory ops, List.length_drop]
    omega
  · intro batches
    refine ⟨foldl_updateHistoricalZones batches, ?_⟩
    rw [foldl_updateHistoricalZones batches, List.length_drop]
    omega

/-- A venue with no polling interval, no pending timer and a connection
state that is not `connecting` can never change again: every event is a
no-op. -/
theorem venueStep_frozen (s : VenueState) (hpoll : s.polling = false)
    (htimer : s.reconnectTimer = none) (hconn : s.conn ≠ ConnState.connecting) :
    ∀ e, venueStep s e = s := by
  intro e
  cases e with
  | pollSuccess =>
    simp [venueStep, hpoll]
  | pollFailure jitter =>
    simp [venueStep, hpoll]
  | reconnectTimerFire =>
    simp [venueStep, htimer]
  | connectSuccess =>
    simp [venueStep, hconn]
  | connectFailure jitter =>
    simp [venueStep, hconn]

theorem venueStep_frozen_foldl (s : VenueState) (hpoll : s.polling = false)
    (htimer : s.reconnectTimer = none) (hconn : s.conn ≠ ConnState.connecting) :
    ∀ es : List VenueEvent, List.foldl venueStep s es = s := by
  intro es
  induction es with
  | nil => rfl
  | cons e rest ih =>
    rw [List.foldl_cons, venueStep_frozen s hpoll htimer hconn e, ih]

/-- Claim C8: in the per-venue connection state machine, (a) a connected,
polling venue with no accumulated errors that suffers exactly 3
consecutive poll failures stays connected after the first two and on the
third transitions to `failed`, its polling stops, and — while the attempt
counter is below the maximum, as it always is after a successful connect —
a reconnect timer is scheduled with the exponential backoff delay capped
at 60 seconds; (b) a successful connect attempt resets the attempt
counter to 0; (c) once the attempt counter has reached
`maxReconnectAttempts = 8`, a failing connect attempt leaves the venue
failed with no timer, and no later event can ever change its state again —
it remains permanently failed with no reconnect scheduled. -/
theorem claim8_connectionStateMachine (s : VenueState) (j1 j2 j3 : ℚ) :
    (s.conn = ConnState.connected → s.polling = true → s.consecutiveErrors = 0 →
      s.reconnectAttempts < maxReconnectAttempts →
      (venueStep s (VenueEvent.pollFailure j1)).conn = ConnState.connected ∧
      (venueStep (venueStep s (VenueEvent.pollFailure j1))
        (VenueEvent.pollFailure j2)).conn = ConnState.connected ∧
      (venueStep (venueStep (venueStep s (VenueEvent.pollFailure j1))
        (VenueEvent.pollFailure j2)) (VenueEvent.pollFailure j3)).conn =
          ConnState.failed ∧
      (venueStep (venueStep (venueStep s (VenueEvent.pollFailure j1))
        (VenueEvent.pollFailure j2)) (VenueEvent.pollFailure j3)).polling = false ∧
      (venueStep (venueStep (venueStep s (VenueEvent.pollFailure j1))
        (VenueEvent.pollFailure j2)) (VenueEvent.pollFailure j3)).reconnectTimer =
          some (backoffDelay s.reconnectAttempts j3) ∧
      backoffDelay s.reconnectAttempts j3 ≤ 60000) ∧
    (s.conn = ConnState.connecting →
      (venueStep s VenueEvent.connectSuccess).reconnectAttempts = 0 ∧
      (venueStep s VenueEvent.connectSuccess).conn = ConnState.connected) ∧
    (s.conn = ConnState.connecting → s.polling = false → s.reconnectTimer = none →
      maxReconnectAttempts ≤ s.reconnectAttempts →
      (venueStep s (VenueEvent.connectFailure j1)).conn = ConnState.failed ∧
      (venueStep s (VenueEvent.connectFailure j1)).reconnectTimer = none ∧
      ∀ es : List VenueEvent,
        List.foldl venueStep (venueStep s (VenueEvent.connectFailure j1)) es =
          venueStep s (VenueEvent.connectFailure j1)) := by
  refine ⟨?_, ?_, ?_⟩
  · intro hconn hpoll herr hatt
    have hnle : ¬ maxReconnectAttempts ≤ s.reconnectAttempts := Nat.not_le_of_lt hatt
    refine ⟨?_, ?_, ?_, ?_, ?_, min_le_right _ _⟩ <;>
      simp [venueStep, scheduleReconnect, hpoll, herr, hconn, hnle]
  · intro hconn
    constructor <;> simp [venueStep, hconn]
  · intro hconn hpoll htimer hatt
    have h1 : venueStep s (VenueEvent.connectFailure j1) =
        { s with
          conn := ConnState.failed
          consecutiveErrors := s.consecutiveErrors + 1
          reconnectTimer := none } := by
      simp [venueStep, scheduleReconnect, hconn, hatt]
    refine ⟨by rw [h1], by rw [h1], ?_⟩
    intro es
    refine venueStep_frozen_foldl _ ?_ ?_ ?_ es
    · rw [h1]
      exact hpoll
    · rw [h1]
    · rw [h1]
      simp

theorem claim8_connectionStateMachine_witness :
    (venueStep (venueStep (venueStep
      ⟨ConnState.connected, 0, 0, true, none⟩ (VenueEvent.pollFailure 0))
      (VenueEvent.pollFailure 0)) (VenueEvent.pollFailure 0)).conn = ConnState.failed ∧
    (venueStep ⟨ConnState.connecting, 0, 3, false, none⟩
      VenueEvent.connectSuccess).reconnectAttempts = 0 ∧
    (venueStep ⟨ConnState.connecting, 2, 8, false, none⟩
      (VenueEvent.connectFailure 0)).reconnectTimer = none := by
  refine ⟨((claim8_connectionStateMachine ⟨ConnState.connected, 0, 0, true, none⟩ 0 0 0).1
      rfl rfl rfl (by norm_num [maxReconnectAttempts])).2.2.1,
    ((claim8_connectionStateMachine ⟨ConnState.connecting, 0, 3, false, none⟩ 0 0 0).2.1
      rfl).1,
    ((claim8_connectionStateMachine ⟨ConnState.connecting, 2, 8, false, none⟩ 0 0 0).2.2
      rfl rfl rfl (by norm_num [maxReconnectAttempts])).2.1⟩

/-- Claim C9: the fan-out invokes every registered subscriber's callback
with the snapshot — the outcome list is exactly the pointwise image of the
callbacks applied to the snapshot, one entry per subscriber — and an
exception thrown by one subscriber is caught inside the dispatch loop, so
that the subscribers after it are still invoked and still receive the
snapshot. -/
theorem claim9_fanOut (data : OrderbookData) :
    (∀ subscribers : List (OrderbookData → Except ℕ Unit),
      notifySubscribers subscribers data = subscribers.map (fun cb =>
        match cb data with
        | Except.ok _ => DeliveryOutcome.delivered
        | Except.error code => DeliveryOutcome.caught code) ∧
      (notifySubscribers subscribers data).length = subscribers.length) ∧
    (∀ (pre post : List (OrderbookData → Except ℕ Unit))
        (bad : OrderbookData → Except ℕ Unit) (code : ℕ),
      bad data = Except.error code →
      notifySubscribers (pre ++ bad :: post) data =
        notifySubscribers pre data ++ DeliveryOutcome.caught code ::
          notifySubscribers post data) := by
  have hmap : ∀ subscribers : List (OrderbookData → Except ℕ Unit),
      notifySubscribers subscribers data = subscribers.map (fun cb =>
        match cb data with
        | Except.ok _ => DeliveryOutcome.delivered
        | Except.error code => DeliveryOutcome.caught code) := by
    intro subscribers
    induction subscribers with
    | nil => rfl
    | cons cb rest ih =>
      rw [notifySubscribers, ih, List.map_cons]
  constructor
  · intro subscribers
    refine ⟨hmap subscribers, ?_⟩
    rw [hmap subscribers, List.length_map]
  · intro pre post bad code hbad
    rw [hmap, hmap, hmap, List.map_append, List.map_cons, hbad]

theorem claim9_fanOut_witness :
    notifySubscribers [fun _ => Except.ok (), fun _ => Except.error 7,
      fun _ => Except.ok ()] sampleSnapshot =
      [DeliveryOutcome.delivered, DeliveryOutcome.caught 7,
        DeliveryOutcome.delivered] := by
  have h := (claim9_fanOut sampleSnapshot).2 [fun _ => Except.ok ()]
    [fun _ => Except.ok ()] (fun _ => Except.error 7) 7 rfl
  simp only [List.singleton_append] at h
  rw [h]
  rfl

/-- Claim C10: whenever both the top-10 bid volume and the top-10 ask
volume are zero (in particular when both sides are empty),
`detectImbalances` performs no division — the guard precedes the ratio
computation — and returns the fixed result `{ratio 1, balanced,
intensity 0, neutral}`; and indeed the reported ratio `1` exceeds the
`0.65` threshold that would otherwise classify as bid/bullish, yet the
returned direction is `balanced`. -/
theorem claim10_imbalance_zeroVolume (data : OrderbookData)
    (hb : totalQuantity (data.bids.take 10) = 0)
    (ha : totalQuantity (data.asks.take 10) = 0) :
    detectImbalances data =
      { ratio := 1, direction := ImbalanceDirection.balanced, intensity := 0,
        prediction := MarketOutlook.neutral } ∧
    (65 / 100 : ℚ) < 1 := by
  refine ⟨?_, by norm_num⟩
  simp only [detectImbalances]
  rw [if_pos ⟨hb, ha⟩]

theorem claim10_imbalance_zeroVolume_witness :
    detectImbalances { bids := [], asks := [], timestamp := 0 } =
      { ratio := 1, direction := ImbalanceDirection.balanced, intensity := 0,
        prediction := MarketOutlook.neutral } :=
  (claim10_imbalance_zeroVolume { bids := [], asks := [], timestamp := 0 }
    rfl rfl).1
